import Mathlib

/-!
Verification development for the opper-openapi-docs incremental build
pipeline.  The definitions below are shallow embeddings of the TypeScript
source: `computeSectionHash` (src/hashing.ts), the generation orchestrator
`generate`/`updateManifest` (src/generate.ts), and the static-site renderer's
`slugify`/`extractHeadings`/`buildNav` (src/renderer.ts).  JavaScript maps
and objects are modelled as insertion-ordered association lists, matching
`Map` iteration order and `JSON.stringify` key order.
-/

/-- A JavaScript value as seen by `JSON.stringify`.  `jundef` models
`undefined`: omitted inside objects, rendered as `null` inside arrays.
Object fields are kept in insertion order, exactly as `JSON.stringify`
serializes them. -/
inductive JsVal where
  | jundef
  | jnull
  | jbool (b : Bool)
  | jnum (n : Int)
  | jstr (s : String)
  | jarr (elems : List JsVal)
  | jobj (fields : List (String × JsVal))

/-- Hex digit for escape sequences. -/
def hexDigit (n : Nat) : Char :=
  if n < 10 then Char.ofNat (48 + n) else Char.ofNat (87 + (n % 16))

/-- JSON escaping of a single character, per `JSON.stringify`. -/
def escChar (c : Char) : String :=
  if c = '"' then "\\\""
  else if c = '\\' then "\\\\"
  else if c = '\n' then "\\n"
  else if c = '\r' then "\\r"
  else if c = '\t' then "\\t"
  else if c = '\x08' then "\\b"
  else if c = '\x0c' then "\\f"
  else if c.val < 32 then
    String.mk ['\\', 'u', '0', '0', hexDigit (c.toNat / 16), hexDigit (c.toNat % 16)]
  else String.mk [c]

/-- JSON string quoting, per `JSON.stringify`. -/
def quoteStr (s : String) : String :=
  "\"" ++ String.join (s.data.map escChar) ++ "\""

mutual

/-- `JSON.stringify` on the JavaScript value model (no spacing argument).
`stringify .jundef` is unreachable in this development (the code always
stringifies an array). -/
def stringify : JsVal → String
  | .jundef => "undefined"
  | .jnull => "null"
  | .jbool true => "true"
  | .jbool false => "false"
  | .jnum n => toString n
  | .jstr s => quoteStr s
  | .jarr es => "[" ++ String.intercalate "," (stringifyElems es) ++ "]"
  | .jobj fs => "\x7b" ++ String.intercalate "," (stringifyFields fs) ++ "\x7d"

/-- Array elements: `undefined` renders as `null`. -/
def stringifyElems : List JsVal → List String
  | [] => []
  | e :: es =>
    (match e with
     | .jundef => "null"
     | _ => stringify e) :: stringifyElems es

/-- Object fields: `undefined`-valued keys are omitted. -/
def stringifyFields : List (String × JsVal) → List String
  | [] => []
  | (k, v) :: fs =>
    match v with
    | .jundef => stringifyFields fs
    | _ => (quoteStr k ++ ":" ++ stringify v) :: stringifyFields fs

end

/-- Modelled from the spec: `sha256` from src/manifest.ts, which is not under
src/ (only its callers are).  The spec calls it a cryptographic hash of the
serialized string, deterministic and collision-free up to cryptographic odds;
it is modelled as the identity embedding of the serialized string, which is
deterministic and injective, so hash equality coincides with equality of the
serialized inputs. -/
def sha256 (s : String) : String := s

/-- Association-list lookup, modelling `Map.get` / JS object indexing. -/
def getA {α : Type} (k : String) : List (String × α) → Option α
  | [] => none
  | (k', v) :: rest => if k' = k then some v else getA k rest

/-- Association-list update, modelling `Map.set` / JS object property
assignment: an existing key keeps its position and gets the new value,
a fresh key is appended. -/
def mapSet {α : Type} (l : List (String × α)) (k : String) (v : α) :
    List (String × α) :=
  match l with
  | [] => [(k, v)]
  | (k', v') :: rest =>
    if k' = k then (k, v) :: rest else (k', v') :: mapSet rest k v

/-- Removal of a key, modelling `unlink` on the file-system map. -/
def fsDel {α : Type} (l : List (String × α)) (k : String) : List (String × α) :=
  l.filter (fun kv => kv.1 ≠ k)

/-- An OpenAPI tag as stored on the spec index (`name`, optional
`description`). -/
structure TagDecl where
  name : String
  description : Option String
deriving DecidableEq

/-- One endpoint record of `pathsByTag`.  Modelled from the spec: the index
builder (src/spec-index.ts) is not under src/; the spec (§3) fixes the
record shape `\x7bpath, method, operation\x7d` with references resolved. -/
structure Endpoint where
  path : String
  method : String
  operation : JsVal

/-- The flattened spec index (src/spec-index.ts shape, as consumed by
src/hashing.ts and src/tools.ts).  `schemas` and `pathsByTag` are JS `Map`s,
modelled as insertion-ordered association lists. -/
structure SpecIndex where
  info : JsVal
  servers : JsVal
  tags : List TagDecl
  schemas : List (String × JsVal)
  pathsByTag : List (String × List Endpoint)
  security : JsVal

/-- Section types, per the planner's zod schema. -/
inductive SectionType where
  | overview
  | auth
  | endpointGroup
  | schemas
  | errors
deriving DecidableEq

/-- A planned section, per the planner's zod schema (src/agents/planner.ts).
`group`, `relatedTags`, `relatedSchemas` are optional fields. -/
structure Section where
  id : String
  title : String
  outputPath : String
  type : SectionType
  description : String
  group : Option String
  relatedTags : Option (List String)
  relatedSchemas : Option (List String)
  order : Int
deriving DecidableEq

/-- `Array.prototype.toSorted()` on string arrays: stable sort by the
default string comparison.  Insertion sort is stable, matching JS sort. -/
def sortStrings (l : List String) : List String :=
  List.insertionSort (fun a b => a ≤ b) l

/-- Stable sort of schema entries by name, modelling
`.sort(([a],[b]) => a.localeCompare(b))`.  `localeCompare` is modelled as
the code-point order on strings; the development relies only on it being a
total order. -/
def sortPairs (l : List (String × JsVal)) : List (String × JsVal) :=
  List.insertionSort (fun a b => a.1 ≤ b.1) l

/-- Stable sort of collected error-response objects by their serialized
form, modelling `.sort((a,b) => JSON.stringify(a).localeCompare(JSON.stringify(b)))`. -/
def sortByStringify (l : List JsVal) : List JsVal :=
  List.insertionSort (fun a b => stringify a ≤ stringify b) l

/-- `Object.entries` on a modelled JS value (used for `operation.responses`). -/
def objEntries : JsVal → List (String × JsVal)
  | .jobj fs => fs
  | _ => []

/-- The `responses ?? \x7b\x7d` field of an operation value. -/
def responsesOf (operation : JsVal) : List (String × JsVal) :=
  match operation with
  | .jobj fs =>
    match getA "responses" fs with
    | some r => objEntries r
    | none => []
  | _ => []

/-- The error-response objects collected by the `errors` branch of
`computeSectionHash`: every `(path, method, code, response)` with a status
code starting in "4" or "5", in map-iteration order. -/
def collectErrorResponses (idx : SpecIndex) : List JsVal :=
  idx.pathsByTag.flatMap (fun te =>
    te.2.flatMap (fun ep =>
      (responsesOf ep.operation).filterMap (fun cr =>
        if cr.1.startsWith "4" || cr.1.startsWith "5" then
          some (.jobj [("path", .jstr ep.path), ("method", .jstr ep.method),
                       ("code", .jstr cr.1), ("response", cr.2)])
        else none)))

/-- The tag objects hashed by the `overview` branch:
`\x7b name: t.name, description: t.description \x7d` (an absent description is
`undefined` and drops out of the serialization). -/
def tagToJs (t : TagDecl) : JsVal :=
  .jobj [("name", .jstr t.name),
         ("description", match t.description with
                         | some d => .jstr d
                         | none => .jundef)]

/-- One `\x7b tag, endpoints \x7d` part of the `endpoint-group` branch. -/
def tagPartToJs (idx : SpecIndex) (tag : String) : JsVal :=
  .jobj [("tag", .jstr tag),
         ("endpoints", .jarr (((getA tag idx.pathsByTag).getD []).map (fun ep =>
           .jobj [("path", .jstr ep.path), ("method", .jstr ep.method),
                  ("operation", ep.operation)])))]

/-- One `\x7b schema, definition \x7d` part of the `endpoint-group` branch
(a missing schema yields `undefined`, whose key is dropped). -/
def schemaPartToJs (idx : SpecIndex) (name : String) : JsVal :=
  .jobj [("schema", .jstr name),
         ("definition", match getA name idx.schemas with
                        | some v => v
                        | none => .jundef)]

/-- The `parts` array assembled by `computeSectionHash` (src/hashing.ts). -/
def hashParts (s : Section) (idx : SpecIndex) : List JsVal :=
  match s.type with
  | .overview =>
    [idx.info, idx.servers, .jarr (idx.tags.map tagToJs)]
  | .auth =>
    [idx.security]
  | .endpointGroup =>
    (sortStrings (s.relatedTags.getD [])).map (tagPartToJs idx) ++
    (sortStrings (s.relatedSchemas.getD [])).map (schemaPartToJs idx)
  | .schemas =>
    [.jarr ((sortPairs idx.schemas).map (fun kv => .jarr [.jstr kv.1, kv.2]))]
  | .errors =>
    [.jarr (sortByStringify (collectErrorResponses idx))]

/-- `computeSectionHash(section, specIndex)` from src/hashing.ts:
`sha256(JSON.stringify(parts))`. -/
def computeSectionHash (s : Section) (idx : SpecIndex) : String :=
  sha256 (stringify (.jarr (hashParts s idx)))

/-- One persisted manifest entry.  The schema (spec §6 and the repository's
tests) allows optional `title`, `group`, `order` alongside the mandatory
fields; absence is modelled as `none`. -/
structure ManifestEntry where
  contentHash : String
  outputPath : String
  title : Option String
  group : Option String
  order : Option Int
  generatedAt : String
deriving DecidableEq

/-- The persisted manifest.  `sections` is a JS object keyed by section id,
modelled as an insertion-ordered association list. -/
structure Manifest where
  version : Int
  specHash : String
  instructionsHash : String
  sections : List (String × ManifestEntry)
deriving DecidableEq

/-- The configuration fields `generate` reads (src/config.ts `Config`,
restricted to the fields the orchestrator consumes). -/
structure GenConfig where
  force : Bool
  instructions : Option String
deriving DecidableEq

/-- The writer agent's structured output (src/agents/writer.ts). -/
structure SectionOutput where
  markdown : String
  title : String
deriving DecidableEq

/-- Modelled from the spec: `JSON.stringify(specIndex)` for the whole-index
`specHash`.  The index builder (src/spec-index.ts) is not under src/, so the
exact JS field order of the index object is taken from the spec's data model
(§3); JS `Map`s serialize as `\x7b\x7d`.  The development relies only on this
being a function of the index. -/
def specIndexToJson (idx : SpecIndex) : JsVal :=
  .jobj [("info", idx.info),
         ("servers", idx.servers),
         ("tags", .jarr (idx.tags.map tagToJs)),
         ("schemas", .jobj []),
         ("pathsByTag", .jobj []),
         ("security", idx.security)]

/-- `specHash` as computed at the top of `generate`. -/
def computeSpecHash (idx : SpecIndex) : String :=
  sha256 (stringify (specIndexToJson idx))

/-- `instructionsHash` as computed in `generate`:
`sha256(config.instructions ?? "")`. -/
def computeInstructionsHash (cfg : GenConfig) : String :=
  sha256 (cfg.instructions.getD "")

/-- The short-circuit test of `generate`: not forced, manifest present, and
both stored hashes match the fresh ones. -/
def shortCircuitB (cfg : GenConfig) (idx : SpecIndex) (prev : Option Manifest) :
    Bool :=
  match prev with
  | none => false
  | some m =>
    !cfg.force && m.specHash == computeSpecHash idx &&
      m.instructionsHash == computeInstructionsHash cfg

/-- `forceAll = config.force || !manifest || manifest.instructionsHash !== instructionsHash`. -/
def computeForceAll (cfg : GenConfig) (prev : Option Manifest) : Bool :=
  match prev with
  | none => true
  | some m => cfg.force || !(m.instructionsHash == computeInstructionsHash cfg)

/-- Stable sort of sections by `order`, modelling the in-place
`sections.sort((a, b) => a.order - b.order)`. -/
def sortByOrder (l : List Section) : List Section :=
  List.insertionSort (fun a b => a.order ≤ b.order) l

/-- The stale-section filter of `generate` (step 4): a section is kept
unless a manifest entry for its id carries an identical recomputed
content hash. -/
def staleSections (cfg : GenConfig) (idx : SpecIndex) (prev : Option Manifest)
    (plan : List Section) : List Section :=
  (sortByOrder plan).filter (fun s =>
    if computeForceAll cfg prev then true
    else
      match prev with
      | none => true
      | some m =>
        match getA s.id m.sections with
        | some cached => !(cached.contentHash == computeSectionHash s idx)
        | none => true)

/-- The per-section markdown results map (step 5 of `generate`): each
successful writer invocation stores `"# " + title + "\n\n" + markdown`
under the section id; a failed invocation (modelled as `none`) stores
nothing. -/
def buildResults (writer : Section → Option SectionOutput) (l : List Section) :
    List (String × String) :=
  l.foldl (fun acc s =>
    match writer s with
    | some o => mapSet acc s.id ("# " ++ o.title ++ "\n\n" ++ o.markdown)
    | none => acc) []

/-- The ids whose writer invocation failed, in processing order (the
caught-and-logged sections of step 5). -/
def failedIds (writer : Section → Option SectionOutput) (l : List Section) :
    List String :=
  l.filterMap (fun s => if (writer s).isSome then none else some s.id)

/-- `updateManifest` (src/generate.ts): one entry per plan section, content
hash recomputed, only `contentHash`, `outputPath` and `generatedAt` stored. -/
def mkManifest (planSorted : List Section) (idx : SpecIndex)
    (specHash instructionsHash now : String) : Manifest :=
  { version := 1
    specHash := specHash
    instructionsHash := instructionsHash
    sections := planSorted.foldl (fun acc s =>
      mapSet acc s.id
        { contentHash := computeSectionHash s idx
          outputPath := s.outputPath
          title := none
          group := none
          order := none
          generatedAt := now }) [] }

/-- The observable outcome of one `generate` run: the final file-system map,
the list of paths written this run, the manifest persisted by
`updateManifest` (if reached), and the ids of failed writer invocations. -/
structure RunResult where
  fs : List (String × String)
  written : List String
  manifestWritten : Option Manifest
  failures : List String
deriving DecidableEq

/-- The `generate` orchestrator (src/generate.ts), as a pure state
transformer.  External collaborators are parameters: `plan` is the
planner's section list, `writer` maps a section to its output (`none`
models a thrown failure, caught per section), `fs0` is the initial
file-system map restricted to the output root, `now` the timestamp.
Mirrors the source: short-circuit, `forceAll`, in-place order sort,
stale filter, sequential writer loop with per-section catch, file
writes, orphan unlink pass, manifest rewrite. -/
def generateModel (cfg : GenConfig) (idx : SpecIndex) (prev : Option Manifest)
    (plan : List Section) (writer : Section → Option SectionOutput)
    (fs0 : List (String × String)) (now : String) : RunResult :=
  let specHash := computeSpecHash idx
  let instructionsHash := computeInstructionsHash cfg
  if shortCircuitB cfg idx prev then
    { fs := fs0, written := [], manifestWritten := none, failures := [] }
  else
    let planSorted := sortByOrder plan
    let toGen := staleSections cfg idx prev plan
    if toGen.isEmpty then
      { fs := fs0, written := [],
        manifestWritten := some (mkManifest planSorted idx specHash instructionsHash now),
        failures := [] }
    else
      let toGenSorted := sortByOrder toGen
      let results := buildResults writer toGenSorted
      let writes := planSorted.filterMap (fun s =>
        (getA s.id results).map (fun md => (s.outputPath, md ++ "\n")))
      let fs1 := writes.foldl (fun fs w => mapSet fs w.1 w.2) fs0
      let fs2 :=
        match prev with
        | none => fs1
        | some m =>
          let currentPaths := planSorted.map (fun s => s.outputPath)
          m.sections.foldl (fun fs kc =>
            if kc.2.outputPath ∈ currentPaths then fs
            else fsDel fs kc.2.outputPath) fs1
      { fs := fs2
        written := writes.map (fun w => w.1)
        manifestWritten := some (mkManifest planSorted idx specHash instructionsHash now)
        failures := failedIds writer toGenSorted }

/-- JS `\s` whitespace (ASCII range; the renderer's inputs are markdown
text, for which this is the relevant set). -/
def isWsChar (c : Char) : Bool :=
  c == ' ' || c == '\t' || c == '\n' || c == '\r' || c == '\x0b' || c == '\x0c'

/-- JS `\w` word characters `[A-Za-z0-9_]`. -/
def isWordChar (c : Char) : Bool :=
  ('a' ≤ c && c ≤ 'z') || ('A' ≤ c && c ≤ 'Z') || ('0' ≤ c && c ≤ '9') || c == '_'

mutual

/-- `String.replace(/p+/g, r)` for a character class `p`: each maximal run
of `p`-characters is replaced by the single character `r`. -/
def collapseRuns (p : Char → Bool) (r : Char) : List Char → List Char
  | [] => []
  | c :: rest =>
    if p c then r :: collapseRunsSkip p r rest
    else c :: collapseRuns p r rest

/-- State inside a run of `p`-characters: skip until the run ends. -/
def collapseRunsSkip (p : Char → Bool) (r : Char) : List Char → List Char
  | [] => []
  | c :: rest =>
    if p c then collapseRunsSkip p r rest
    else c :: collapseRuns p r rest

end

/-- JS `String.prototype.trim()`: strip whitespace from both ends. -/
def jsTrim (l : List Char) : List Char :=
  ((l.dropWhile isWsChar).reverse.dropWhile isWsChar).reverse

/-- `slugify` from src/renderer.ts: lower-case, strip characters outside
word/space/hyphen, collapse whitespace runs to single hyphens, collapse
hyphen runs, then `.trim()` (which strips whitespace, not hyphens). -/
def slugify (s : String) : String :=
  String.mk (jsTrim (collapseRuns (fun c => c == '-') '-'
    (collapseRuns isWsChar '-'
      ((s.data.map Char.toLower).filter (fun c =>
        isWordChar c || isWsChar c || c == '-')))))

/-- The heading-slug rule as the spec states it (§4.5 / claim C7): the same
pipeline but finishing by trimming leading and trailing HYPHENS.  Spec-side
definition, to be compared with `slugify`. -/
def specClaimedSlug (s : String) : String :=
  String.mk (((((collapseRuns (fun c => c == '-') '-'
    (collapseRuns isWsChar '-'
      ((s.data.map Char.toLower).filter (fun c =>
        isWordChar c || isWsChar c || c == '-')))).dropWhile
          (fun c => c == '-')).reverse.dropWhile (fun c => c == '-')).reverse))

/-- The amended slug rule: lower-case, strip, collapse whitespace runs to
hyphens, collapse hyphen runs — with no edge trimming at all.  Spec-side
definition for the amended claim C7. -/
def specAmendedSlug (s : String) : String :=
  String.mk (collapseRuns (fun c => c == '-') '-'
    (collapseRuns isWsChar '-'
      ((s.data.map Char.toLower).filter (fun c =>
        isWordChar c || isWsChar c || c == '-'))))

/-- An extracted heading (src/renderer.ts `Heading`): level 2 or 3, text
with backticks removed, slug of the raw text. -/
structure Heading where
  level : Nat
  text : String
  slug : String
deriving DecidableEq

/-- `text.replace(/`/g, "")`. -/
def stripBackticks (s : String) : String :=
  String.mk (s.data.filter (fun c => c ≠ '`'))

/-- Matching one line against `^(#{2,3})\s+(.+)$`: two or three leading
hashes (a longer run fails the match), then at least one whitespace
character, then at least one arbitrary character to end of line (greedy
`\s+` backtracks by one when the remainder is all whitespace). -/
def matchHeadingLine (line : String) : Option (Nat × String) :=
  let l := line.data
  let hashes := l.takeWhile (fun c => c == '#')
  let n := hashes.length
  if n = 2 || n = 3 then
    let rest := l.drop n
    let w := rest.takeWhile isWsChar
    let t := rest.drop w.length
    if w.isEmpty then none
    else if t.isEmpty then
      if 2 ≤ rest.length then some (n, String.mk (rest.drop (rest.length - 1)))
      else none
    else some (n, String.mk t)
  else none

/-- Split a string at newline characters (the line structure the multiline
heading regex iterates over). -/
def splitLinesAux : List Char → List Char → List String
  | [], acc => [String.mk acc.reverse]
  | c :: rest, acc =>
    if c = '\n' then String.mk acc.reverse :: splitLinesAux rest []
    else splitLinesAux rest (c :: acc)

/-- The lines of a body, in order. -/
def splitLines (s : String) : List String :=
  splitLinesAux s.data []

/-- `extractHeadings` from src/renderer.ts: run the heading regex over
every line of the body. -/
def extractHeadings (markdown : String) : List Heading :=
  (splitLines markdown).filterMap (fun line =>
    (matchHeadingLine line).map (fun m =>
      { level := m.1, text := stripBackticks m.2, slug := slugify m.2 }))

/-- `text.replace(/<[^>]*>/g, "")`: drop each `<`...`>` span (a `<` with no
later `>` is kept). -/
def stripTags : List Char → List Char
  | [] => []
  | c :: rest =>
    if c = '<' then
      if rest.any (fun d => d == '>') then
        stripTags ((rest.dropWhile (fun d => d ≠ '>')).tail)
      else c :: stripTags rest
    else c :: stripTags rest
termination_by l => l.length
decreasing_by
  · simp only [List.length_cons]
    exact Nat.lt_succ_of_le (Nat.le_trans
      (by cases rest.dropWhile (fun d => d ≠ '>') <;> simp)
      (List.dropWhile_sublist _).length_le)
  · simp
  · simp

/-- The id attribute the Marked heading renderer emits
(src/renderer.ts): `slugify(text.replace(/<[^>]*>/g, ""))`. -/
def headingId (text : String) : String :=
  slugify (String.mk (stripTags text.data))

/-- A leaf navigation item (src/renderer.ts `NavItem`). -/
structure NavItem where
  title : String
  href : String
  active : Bool
  toc : Option (List Heading)
deriving DecidableEq

/-- A navigation entry: leaf item or labelled group (src/renderer.ts
`NavEntry`). -/
inductive NavEntry where
  | item (it : NavItem)
  | group (label : String) (items : List NavItem)
deriving DecidableEq

/-- The section fields `buildNav` consumes. -/
structure NavSection where
  id : String
  outputPath : String
  title : String
  group : Option String
deriving DecidableEq

/-- The per-section render data `buildNav` reads from `sectionData`
(headings and html path); the map is total here, modelling the non-null
assertion `sectionData.get(sec.id)!`. -/
structure RenderDatum where
  headings : List Heading
  htmlPath : String

/-- The `NavItem` built for one section: active iff its html path is the
page being rendered, and only the active item carries the TOC. -/
def mkNavItem (currentPath : String) (data : String → RenderDatum)
    (sec : NavSection) : NavItem :=
  let d := data sec.id
  { title := sec.title
    href := d.htmlPath
    active := d.htmlPath == currentPath
    toc := if d.htmlPath == currentPath then some d.headings else none }

/-- Whether `entries` already holds a group bucket with this label
(equivalently: whether the label is in the `groups` map, since every
created bucket is pushed into `entries`). -/
def hasGroup (g : String) (entries : List NavEntry) : Bool :=
  entries.any (fun e =>
    match e with
    | .group l _ => l == g
    | .item _ => false)

/-- Append an item into the (unique) existing bucket with this label,
modelling the aliased `group.push(item)` of the source. -/
def pushToGroup (g : String) (it : NavItem) : List NavEntry → List NavEntry
  | [] => []
  | .group l items :: rest =>
    if l = g then .group l (items ++ [it]) :: rest
    else .group l items :: pushToGroup g it rest
  | .item x :: rest => .item x :: pushToGroup g it rest

/-- One iteration of the `buildNav` loop: an ungrouped section appends a
top-level item; a grouped section appends into the existing bucket, or
creates (and appends) a fresh bucket holding just this item. -/
def buildNavStep (currentPath : String) (data : String → RenderDatum)
    (entries : List NavEntry) (sec : NavSection) : List NavEntry :=
  let it := mkNavItem currentPath data sec
  match sec.group with
  | none => entries ++ [.item it]
  | some g =>
    if hasGroup g entries then pushToGroup g it entries
    else entries ++ [.group g [it]]

/-- `buildNav` from src/renderer.ts: fold the step over the sections in the
order given. -/
def buildNav (sections : List NavSection) (currentPath : String)
    (data : String → RenderDatum) : List NavEntry :=
  sections.foldl (buildNavStep currentPath data) []

/-- Spec-side navigation (claim C8's words): walking the sections in plan
order with the already-processed prefix at hand, an ungrouped section emits
a top-level item at its position; a grouped section emits, at the position
of its label's first occurrence only, one bucket holding every item of that
label across the whole plan, and emits nothing at later occurrences. -/
def specNavGo (currentPath : String) (data : String → RenderDatum)
    (all : List NavSection) :
    List NavSection → List NavSection → List NavEntry
  | _, [] => []
  | pre, s :: rest =>
    (match s.group with
     | none => [.item (mkNavItem currentPath data s)]
     | some g =>
       if pre.any (fun t => t.group == some g) then []
       else [.group g ((all.filter (fun t => t.group == some g)).map
              (mkNavItem currentPath data))]) ++
    specNavGo currentPath data all (pre ++ [s]) rest

/-- Spec-side navigation list for a whole plan. -/
def specNav (sections : List NavSection) (currentPath : String)
    (data : String → RenderDatum) : List NavEntry :=
  specNavGo currentPath data sections [] sections

theorem getA_mapSet {α : Type} (l : List (String × α)) (k k' : String) (v : α) :
    getA k (mapSet l k' v) = if k' = k then some v else getA k l := by
  induction l with
  | nil => simp [mapSet, getA]
  | cons kv rest ih =>
    obtain ⟨k₀, v₀⟩ := kv
    by_cases h : k₀ = k'
    · subst h
      simp only [mapSet, if_pos rfl, getA]
      by_cases hk : k₀ = k
      · subst hk; simp [getA]
      · simp [getA, hk]
    · simp only [mapSet, if_neg h, getA]
      by_cases hk : k₀ = k
      · subst hk
        have : ¬ k' = k₀ := fun e => h e.symm
        simp [this]
      · simp [hk, ih]

theorem mapSet_of_getA_none {α : Type} (l : List (String × α)) (k : String)
    (v : α) (h : getA k l = none) : mapSet l k v = l ++ [(k, v)] := by
  induction l with
  | nil => simp [mapSet]
  | cons kv rest ih =>
    obtain ⟨k₀, v₀⟩ := kv
    simp only [getA] at h
    by_cases hk : k₀ = k
    · simp [hk] at h
    · simp only [if_neg hk] at h
      simp [mapSet, hk, ih h]

theorem getA_fsDel {α : Type} (l : List (String × α)) (k k' : String) :
    getA k (fsDel l k') = if k' = k then none else getA k l := by
  induction l with
  | nil => simp [fsDel, getA]
  | cons kv rest ih =>
    obtain ⟨k₀, v₀⟩ := kv
    by_cases h : k₀ = k'
    · subst h
      simp only [fsDel, List.filter] at ih ⊢
      by_cases hk : k₀ = k
      · subst hk; simp_all [getA]
      · simp_all [getA, hk]
    · simp only [fsDel, List.filter] at ih ⊢
      by_cases hk : k₀ = k
      · subst hk
        have : ¬ k' = k₀ := fun e => h e.symm
        simp_all [getA, this]
      · simp_all [getA, hk]

theorem getA_append {α : Type} (l₁ l₂ : List (String × α)) (k : String) :
    getA k (l₁ ++ l₂) =
      match getA k l₁ with
      | some v => some v
      | none => getA k l₂ := by
  induction l₁ with
  | nil => simp [getA]
  | cons kv rest ih =>
    obtain ⟨k₀, v₀⟩ := kv
    by_cases hk : k₀ = k
    · simp [getA, hk]
    · simp [getA, hk, ih]

theorem getA_map_of_nodup {β : Type} (l : List Section) (f : Section → β)
    (s : Section) (hs : s ∈ l) (hnd : (l.map (fun t => t.id)).Nodup) :
    getA s.id (l.map (fun t => (t.id, f t))) = some (f s) := by
  induction l with
  | nil => simp at hs
  | cons t rest ih =>
    simp only [List.map_cons, List.nodup_cons] at hnd
    rcases List.mem_cons.mp hs with h | h
    · subst h; simp [getA]
    · have hne : t.id ≠ s.id := fun e => hnd.1 (e ▸ List.mem_map_of_mem _ h)
      simp [getA, hne, ih h hnd.2]

theorem pairs_eq_of_perm_of_sorted :
    ∀ (l₁ l₂ : List (String × JsVal)), l₁.Perm l₂ →
    l₁.Sorted (fun a b => a.1 ≤ b.1) → l₂.Sorted (fun a b => a.1 ≤ b.1) →
    (l₁.map (fun kv => kv.1)).Nodup → l₁ = l₂
  | [], l₂, hp, _, _, _ => (hp.nil_eq).symm ▸ rfl
  | a :: t₁, [], hp, _, _, _ => absurd hp.symm (by simp)
  | a :: t₁, b :: t₂, hp, hs₁, hs₂, hnd => by
    have hab : a = b := by
      by_contra hne
      have ha2 : a ∈ b :: t₂ := hp.mem_iff.mp (List.mem_cons_self a t₁)
      have hb1 : b ∈ a :: t₁ := hp.mem_iff.mpr (List.mem_cons_self b t₂)
      have ha2' : a ∈ t₂ := by
        rcases List.mem_cons.mp ha2 with h | h
        · exact absurd h hne
        · exact h
      have hb1' : b ∈ t₁ := by
        rcases List.mem_cons.mp hb1 with h | h
        · exact absurd h.symm hne
        · exact h
      have h₁ : a.1 ≤ b.1 := (List.sorted_cons.mp hs₁).1 b hb1'
      have h₂ : b.1 ≤ a.1 := (List.sorted_cons.mp hs₂).1 a ha2'
      have hkey : a.1 = b.1 := le_antisymm h₁ h₂
      have : a.1 ∉ t₁.map (fun kv => kv.1) := (List.nodup_cons.mp hnd).1
      exact this (hkey ▸ List.mem_map_of_mem _ hb1')
    subst hab
    have ht : t₁ = t₂ :=
      pairs_eq_of_perm_of_sorted t₁ t₂ (hp.cons_inv)
        (List.sorted_cons.mp hs₁).2 (List.sorted_cons.mp hs₂).2
        (List.nodup_cons.mp hnd).2
    rw [ht]

theorem sortPairs_sorted (l : List (String × JsVal)) :
    (sortPairs l).Sorted (fun a b => a.1 ≤ b.1) := by
  have htot : IsTotal (String × JsVal) (fun a b => a.1 ≤ b.1) :=
    ⟨fun a b => le_total a.1 b.1⟩
  have htrans : IsTrans (String × JsVal) (fun a b => a.1 ≤ b.1) :=
    ⟨fun _ _ _ h₁ h₂ => le_trans h₁ h₂⟩
  exact List.sorted_insertionSort _ l

theorem sortPairs_congr_of_perm (l₁ l₂ : List (String × JsVal))
    (hp : l₁.Perm l₂) (hnd : (l₁.map (fun kv => kv.1)).Nodup) :
    sortPairs l₁ = sortPairs l₂ := by
  have hperm : (sortPairs l₁).Perm (sortPairs l₂) :=
    ((List.perm_insertionSort _ l₁).trans hp).trans
      (List.perm_insertionSort _ l₂).symm
  have hnd₁ : ((sortPairs l₁).map (fun kv => kv.1)).Nodup :=
    ((List.perm_insertionSort _ l₁).map (fun kv => kv.1)).nodup_iff.mpr hnd
  exact pairs_eq_of_perm_of_sorted _ _ hperm (sortPairs_sorted l₁)
    (sortPairs_sorted l₂) hnd₁

theorem mem_collapseRuns_aux (p : Char → Bool) (r : Char) :
    ∀ (l : List Char),
    (∀ c ∈ collapseRuns p r l, c = r ∨ (c ∈ l ∧ p c = false)) ∧
    (∀ c ∈ collapseRunsSkip p r l, c = r ∨ (c ∈ l ∧ p c = false)) := by
  intro l
  induction l with
  | nil => exact ⟨by simp [collapseRuns], by simp [collapseRunsSkip]⟩
  | cons c rest ih =>
    constructor
    · intro d hd
      rw [collapseRuns] at hd
      by_cases hc : p c = true
      · rw [if_pos hc] at hd
        rcases List.mem_cons.mp hd with h | h
        · exact Or.inl h
        · rcases ih.2 d h with h' | h'
          · exact Or.inl h'
          · exact Or.inr ⟨List.mem_cons_of_mem _ h'.1, h'.2⟩
      · rw [if_neg hc] at hd
        rcases List.mem_cons.mp hd with h | h
        · exact Or.inr ⟨h ▸ List.mem_cons_self c rest, h ▸ Bool.of_not_eq_true hc⟩
        · rcases ih.1 d h with h' | h'
          · exact Or.inl h'
          · exact Or.inr ⟨List.mem_cons_of_mem _ h'.1, h'.2⟩
    · intro d hd
      rw [collapseRunsSkip] at hd
      by_cases hc : p c = true
      · rw [if_pos hc] at hd
        rcases ih.2 d hd with h' | h'
        · exact Or.inl h'
        · exact Or.inr ⟨List.mem_cons_of_mem _ h'.1, h'.2⟩
      · rw [if_neg hc] at hd
        rcases List.mem_cons.mp hd with h | h
        · exact Or.inr ⟨h ▸ List.mem_cons_self c rest, h ▸ Bool.of_not_eq_true hc⟩
        · rcases ih.1 d h with h' | h'
          · exact Or.inl h'
          · exact Or.inr ⟨List.mem_cons_of_mem _ h'.1, h'.2⟩

theorem mem_collapseRuns (p : Char → Bool) (r : Char) :
    ∀ (l : List Char), ∀ c ∈ collapseRuns p r l, c = r ∨ (c ∈ l ∧ p c = false) :=
  fun l => (mem_collapseRuns_aux p r l).1

theorem dropWhile_eq_self_of_none (p : Char → Bool) (l : List Char)
    (h : ∀ c ∈ l, p c = false) : l.dropWhile p = l := by
  cases l with
  | nil => rfl
  | cons a t => simp [List.dropWhile_cons, h a (List.mem_cons_self a t)]

theorem jsTrim_eq_self (l : List Char) (h : ∀ c ∈ l, isWsChar c = false) :
    jsTrim l = l := by
  unfold jsTrim
  rw [dropWhile_eq_self_of_none _ _ h,
      dropWhile_eq_self_of_none _ _ (fun c hc => h c (List.mem_reverse.mp hc)),
      List.reverse_reverse]

theorem slugify_eq_specAmendedSlug (s : String) :
    slugify s = specAmendedSlug s := by
  unfold slugify specAmendedSlug
  congr 1
  apply jsTrim_eq_self
  intro c hc
  rcases mem_collapseRuns _ _ _ c hc with h | h
  · subst h; decide
  · rcases mem_collapseRuns _ _ _ c h.1 with h' | h'
    · subst h'; decide
    · exact h'.2


theorem filter_map_filter (q : Char → Bool) (f : Char → Char) (keep : Char → Bool)
    (h : ∀ c, q c = false → keep (f c) = false) (l : List Char) :
    ((l.filter q).map f).filter keep = (l.map f).filter keep := by
  induction l with
  | nil => rfl
  | cons c rest ih =>
    by_cases hq : q c = true
    · simp only [List.filter_cons, hq, if_true, List.map_cons, ih]
    · have hq' : q c = false := by simpa using hq
      simp only [List.filter_cons, hq', Bool.false_eq_true, if_false, List.map_cons,
        h c hq', ih]

theorem slugify_stripBackticks (s : String) :
    slugify (stripBackticks s) = slugify s := by
  have hkey : ∀ c : Char, (decide (c ≠ '`')) = false →
      (isWordChar c.toLower || isWsChar c.toLower || c.toLower == '-') = false := by
    intro c hc
    have : c = '`' := by simpa using hc
    subst this; decide
  have hmain := filter_map_filter (fun c => decide (c ≠ '`')) Char.toLower
    (fun c => isWordChar c || isWsChar c || c == '-') hkey s.data
  unfold slugify stripBackticks
  exact congrArg (fun l => String.mk (jsTrim (collapseRuns (fun c => c == '-') '-'
    (collapseRuns isWsChar '-' l)))) (by
      simpa using hmain)

theorem stripTags_of_no_lt (l : List Char) (h : '<' ∉ l) : stripTags l = l := by
  induction l using stripTags.induct with
  | case1 => rw [stripTags]
  | case2 rest hany ih =>
    exact absurd (List.mem_cons_self '<' rest) h
  | case3 rest hany ih =>
    exact absurd (List.mem_cons_self '<' rest) h
  | case4 c rest hc ih =>
    rw [stripTags, if_neg hc]
    exact congrArg (c :: ·) (ih (fun hm => h (List.mem_cons_of_mem c hm)))

theorem foldl_mapSet_fresh {β : Type} (f : Section → β) :
    ∀ (l : List Section) (acc : List (String × β)),
    (l.map (fun s => s.id)).Nodup → (∀ s ∈ l, getA s.id acc = none) →
    l.foldl (fun a s => mapSet a s.id (f s)) acc =
      acc ++ l.map (fun s => (s.id, f s))
  | [], acc, _, _ => by simp
  | s :: rest, acc, hnd, hfresh => by
    simp only [List.foldl_cons, List.map_cons, List.nodup_cons] at hnd ⊢
    rw [mapSet_of_getA_none acc s.id (f s) (hfresh s (List.mem_cons_self s rest))]
    rw [foldl_mapSet_fresh f rest (acc ++ [(s.id, f s)]) hnd.2 (by
      intro t ht
      rw [getA_append]
      rw [hfresh t (List.mem_cons_of_mem s ht)]
      have hne : t.id ≠ s.id := fun e => hnd.1 (e ▸ List.mem_map_of_mem _ ht)
      have hne' : ¬ s.id = t.id := fun e => hne e.symm
      simp [getA, hne'])]
    simp

theorem mkManifest_sections (l : List Section) (idx : SpecIndex)
    (specHash instructionsHash now : String)
    (hnd : (l.map (fun s => s.id)).Nodup) :
    (mkManifest l idx specHash instructionsHash now).sections =
      l.map (fun s => (s.id,
        ({ contentHash := computeSectionHash s idx
           outputPath := s.outputPath
           title := none
           group := none
           order := none
           generatedAt := now } : ManifestEntry))) := by
  unfold mkManifest
  exact (foldl_mapSet_fresh _ l [] hnd (by intro s _; rfl)).trans (by simp)

theorem getA_buildResults_congr (w w' : Section → Option SectionOutput)
    (k : String) :
    ∀ (l : List Section) (acc acc' : List (String × String)),
    getA k acc = getA k acc' → (∀ s ∈ l, s.id = k → w s = w' s) →
    getA k (l.foldl (fun a s =>
      match w s with
      | some o => mapSet a s.id ("# " ++ o.title ++ "\n\n" ++ o.markdown)
      | none => a) acc) =
    getA k (l.foldl (fun a s =>
      match w' s with
      | some o => mapSet a s.id ("# " ++ o.title ++ "\n\n" ++ o.markdown)
      | none => a) acc')
  | [], acc, acc', hacc, _ => by simpa using hacc
  | s :: rest, acc, acc', hacc, hw => by
    simp only [List.foldl_cons]
    apply getA_buildResults_congr w w' k rest
    · by_cases hk : s.id = k
      · rw [hw s (List.mem_cons_self s rest) hk]
        cases w' s with
        | none => exact hacc
        | some o => rw [getA_mapSet, getA_mapSet, hacc]
      · cases hws : w s with
        | none =>
          cases hws' : w' s with
          | none => exact hacc
          | some o => rw [getA_mapSet, if_neg hk, hacc]
        | some o =>
          cases hws' : w' s with
          | none => rw [getA_mapSet, if_neg hk, hacc]
          | some o' => rw [getA_mapSet, getA_mapSet, if_neg hk, if_neg hk, hacc]
    · exact fun t ht => hw t (List.mem_cons_of_mem s ht)

theorem getA_buildResults_isSome (w : Section → Option SectionOutput)
    (k : String) :
    ∀ (l : List Section) (acc : List (String × String)),
    (getA k (l.foldl (fun a s =>
      match w s with
      | some o => mapSet a s.id ("# " ++ o.title ++ "\n\n" ++ o.markdown)
      | none => a) acc)).isSome = true →
    (getA k acc).isSome = true ∨ ∃ s ∈ l, s.id = k ∧ (w s).isSome = true
  | [], acc, h => Or.inl (by simpa using h)
  | s :: rest, acc, h => by
    simp only [List.foldl_cons] at h
    rcases getA_buildResults_isSome w k rest _ h with h' | h'
    · cases hws : w s with
      | none =>
        rw [hws] at h'
        exact Or.inl h'
      | some o =>
        rw [hws] at h'
        rw [getA_mapSet] at h'
        by_cases hk : s.id = k
        · exact Or.inr ⟨s, List.mem_cons_self s rest, hk, by simp [hws]⟩
        · rw [if_neg hk] at h'
          exact Or.inl h'
    · obtain ⟨t, ht, h₁, h₂⟩ := h'
      exact Or.inr ⟨t, List.mem_cons_of_mem s ht, h₁, h₂⟩

theorem getA_foldl_writes (p : String) :
    ∀ (ws : List (String × String)) (fs : List (String × String)),
    getA p (ws.foldl (fun fs w => mapSet fs w.1 w.2) fs) =
      ws.foldl (fun acc w => if w.1 = p then some w.2 else acc) (getA p fs)
  | [], fs => rfl
  | w :: rest, fs => by
    simp only [List.foldl_cons]
    rw [getA_foldl_writes p rest, getA_mapSet]

theorem foldl_filterMap {α β γ : Type} (f : α → Option β) (g : γ → β → γ) :
    ∀ (l : List α) (x : γ),
    (l.filterMap f).foldl g x = l.foldl (fun acc a =>
      match f a with
      | some b => g acc b
      | none => acc) x
  | [], x => rfl
  | a :: rest, x => by
    cases hfa : f a with
    | none => simp only [List.filterMap_cons, hfa, List.foldl_cons,
        foldl_filterMap f g rest x]
    | some b => simp only [List.filterMap_cons, hfa, List.foldl_cons,
        foldl_filterMap f g rest (g x b)]

theorem foldl_congr_mem {α γ : Type} :
    ∀ (l : List α) (g g' : γ → α → γ) (x : γ),
    (∀ acc, ∀ a ∈ l, g acc a = g' acc a) → l.foldl g x = l.foldl g' x
  | [], _, _, _, _ => rfl
  | a :: rest, g, g', x, h => by
    simp only [List.foldl_cons]
    rw [h x a (List.mem_cons_self a rest)]
    exact foldl_congr_mem rest g g' _ (fun acc b hb => h acc b (List.mem_cons_of_mem a hb))

theorem getA_delfold_congr (currentPaths : List String) (p : String) :
    ∀ (l : List (String × ManifestEntry)) (fs fs' : List (String × String)),
    getA p fs = getA p fs' →
    getA p (l.foldl (fun fs kc =>
      if kc.2.outputPath ∈ currentPaths then fs
      else fsDel fs kc.2.outputPath) fs) =
    getA p (l.foldl (fun fs kc =>
      if kc.2.outputPath ∈ currentPaths then fs
      else fsDel fs kc.2.outputPath) fs')
  | [], fs, fs', h => h
  | kc :: rest, fs, fs', h => by
    simp only [List.foldl_cons]
    apply getA_delfold_congr currentPaths p rest
    by_cases hc : kc.2.outputPath ∈ currentPaths
    · rwa [if_pos hc, if_pos hc]
    · rw [if_neg hc, if_neg hc, getA_fsDel, getA_fsDel, h]

theorem getA_delfold_none (currentPaths : List String) (p : String) :
    ∀ (l : List (String × ManifestEntry)) (fs : List (String × String)),
    getA p fs = none →
    getA p (l.foldl (fun fs kc =>
      if kc.2.outputPath ∈ currentPaths then fs
      else fsDel fs kc.2.outputPath) fs) = none
  | [], fs, h => h
  | kc :: rest, fs, h => by
    simp only [List.foldl_cons]
    apply getA_delfold_none currentPaths p rest
    by_cases hc : kc.2.outputPath ∈ currentPaths
    · rwa [if_pos hc]
    · rw [if_neg hc, getA_fsDel]
      by_cases hp : kc.2.outputPath = p
      · simp [hp]
      · rwa [if_neg hp]

theorem getA_delfold_deleted (currentPaths : List String) (p : String) :
    ∀ (l : List (String × ManifestEntry)) (fs : List (String × String)),
    (∃ kc ∈ l, kc.2.outputPath = p) → p ∉ currentPaths →
    getA p (l.foldl (fun fs kc =>
      if kc.2.outputPath ∈ currentPaths then fs
      else fsDel fs kc.2.outputPath) fs) = none
  | [], fs, hex, _ => by simp at hex
  | kc :: rest, fs, hex, hout => by
    simp only [List.foldl_cons]
    obtain ⟨kc', hmem, hpath⟩ := hex
    rcases List.mem_cons.mp hmem with h | h
    · subst h
      rw [hpath, if_neg hout]
      apply getA_delfold_none
      rw [getA_fsDel, if_pos rfl]
    · exact getA_delfold_deleted currentPaths p rest _ ⟨kc', h, hpath⟩ hout

theorem hasGroup_append (g : String) (l₁ l₂ : List NavEntry) :
    hasGroup g (l₁ ++ l₂) = (hasGroup g l₁ || hasGroup g l₂) := by
  unfold hasGroup
  exact List.any_append

theorem pushToGroup_append (g : String) (it : NavItem) :
    ∀ (l₁ l₂ : List NavEntry),
    pushToGroup g it (l₁ ++ l₂) =
      if hasGroup g l₁ = true then pushToGroup g it l₁ ++ l₂
      else l₁ ++ pushToGroup g it l₂
  | [], l₂ => by
    have h0 : hasGroup g [] = false := rfl
    rw [h0]
    simp
  | .item x :: rest, l₂ => by
    have hx : hasGroup g (NavEntry.item x :: rest) = hasGroup g rest := by
      simp only [hasGroup, List.any_cons, Bool.false_or]
    rw [hx]
    simp only [List.cons_append, pushToGroup, List.append_eq]
    rw [pushToGroup_append g it rest l₂]
    by_cases h : hasGroup g rest = true
    · rw [if_pos h, if_pos h]
    · rw [if_neg h, if_neg h]
  | .group l items :: rest, l₂ => by
    by_cases hl : l = g
    · subst hl
      have hx : hasGroup l (NavEntry.group l items :: rest) = true := by
        simp [hasGroup, List.any_cons]
      rw [hx, if_pos rfl]
      simp [pushToGroup]
    · have hx : hasGroup g (NavEntry.group l items :: rest) = hasGroup g rest := by
        simp only [hasGroup, List.any_cons]
        have hlg : (l == g) = false := by simp [hl]
        rw [hlg, Bool.false_or]
      rw [hx]
      simp only [List.cons_append, pushToGroup, List.append_eq, if_neg hl]
      rw [pushToGroup_append g it rest l₂]
      by_cases h : hasGroup g rest = true
      · rw [if_pos h, if_pos h]
      · rw [if_neg h, if_neg h]

theorem pushToGroup_of_hasGroup_false (g : String) (it : NavItem) :
    ∀ (l : List NavEntry), hasGroup g l = false → pushToGroup g it l = l
  | [], _ => rfl
  | .item x :: rest, h => by
    have hr : hasGroup g rest = false := by
      simp only [hasGroup, List.any_cons, Bool.false_or] at h ⊢
      exact h
    simp [pushToGroup, pushToGroup_of_hasGroup_false g it rest hr]
  | .group l items :: rest, h => by
    simp only [hasGroup, List.any_cons, Bool.or_eq_false_iff] at h
    have hl : ¬ l = g := by simpa using h.1
    have hr : hasGroup g rest = false := h.2
    simp [pushToGroup, hl, pushToGroup_of_hasGroup_false g it rest hr]

theorem specNavGo_cons_none (cur : String) (data : String → RenderDatum)
    (all : List NavSection) (pre rest : List NavSection) (t : NavSection)
    (ht : t.group = none) :
    specNavGo cur data all pre (t :: rest) =
      .item (mkNavItem cur data t) :: specNavGo cur data all (pre ++ [t]) rest := by
  rw [specNavGo, ht]
  simp only []
  rfl

theorem specNavGo_cons_seen (cur : String) (data : String → RenderDatum)
    (all : List NavSection) (pre rest : List NavSection) (t : NavSection)
    (g : String) (ht : t.group = some g)
    (hpre : pre.any (fun u => u.group == some g) = true) :
    specNavGo cur data all pre (t :: rest) =
      specNavGo cur data all (pre ++ [t]) rest := by
  rw [specNavGo, ht]
  simp only []
  rw [if_pos hpre]
  rfl

theorem specNavGo_cons_first (cur : String) (data : String → RenderDatum)
    (all : List NavSection) (pre rest : List NavSection) (t : NavSection)
    (g : String) (ht : t.group = some g)
    (hpre : pre.any (fun u => u.group == some g) = false) :
    specNavGo cur data all pre (t :: rest) =
      .group g ((all.filter (fun u => u.group == some g)).map
          (mkNavItem cur data)) ::
        specNavGo cur data all (pre ++ [t]) rest := by
  rw [specNavGo, ht]
  simp only []
  rw [if_neg (by simp [hpre])]
  rfl

theorem specNavGo_append (cur : String) (data : String → RenderDatum)
    (all : List NavSection) :
    ∀ (r₁ r₂ pre : List NavSection),
    specNavGo cur data all pre (r₁ ++ r₂) =
      specNavGo cur data all pre r₁ ++ specNavGo cur data all (pre ++ r₁) r₂
  | [], r₂, pre => by simp [specNavGo]
  | s :: r₁, r₂, pre => by
    have hpp : (pre ++ [s]) ++ r₁ = pre ++ s :: r₁ := by simp
    have ih := specNavGo_append cur data all r₁ r₂ (pre ++ [s])
    cases hs : s.group with
    | none =>
      rw [List.cons_append, specNavGo_cons_none cur data all pre (r₁ ++ r₂) s hs,
        specNavGo_cons_none cur data all pre r₁ s hs, ih, hpp, List.cons_append]
    | some g =>
      by_cases hpre : pre.any (fun u => u.group == some g) = true
      · rw [List.cons_append, specNavGo_cons_seen cur data all pre (r₁ ++ r₂) s g hs hpre,
          specNavGo_cons_seen cur data all pre r₁ s g hs hpre, ih, hpp]
      · have hpre' : pre.any (fun u => u.group == some g) = false :=
          Bool.of_not_eq_true hpre
        rw [List.cons_append, specNavGo_cons_first cur data all pre (r₁ ++ r₂) s g hs hpre',
          specNavGo_cons_first cur data all pre r₁ s g hs hpre', ih, hpp,
          List.cons_append]

theorem filter_append_drop (p : List NavSection) (s : NavSection) (g : String)
    (h : (s.group == some g) = false) :
    (p ++ [s]).filter (fun u => u.group == some g) =
      p.filter (fun u => u.group == some g) := by
  rw [List.filter_append]
  simp [List.filter_cons, h]

theorem specNavGo_all_extend_ungrouped (cur : String)
    (data : String → RenderDatum) (p : List NavSection) (s : NavSection)
    (hs : s.group = none) :
    ∀ (rest pre : List NavSection),
    specNavGo cur data (p ++ [s]) pre rest = specNavGo cur data p pre rest
  | [], _ => rfl
  | t :: rest, pre => by
    have ih := specNavGo_all_extend_ungrouped cur data p s hs rest (pre ++ [t])
    cases ht : t.group with
    | none =>
      rw [specNavGo_cons_none cur data (p ++ [s]) pre rest t ht,
        specNavGo_cons_none cur data p pre rest t ht, ih]
    | some g =>
      have hfil := filter_append_drop p s g (by simp [hs])
      by_cases hpre : pre.any (fun u => u.group == some g) = true
      · rw [specNavGo_cons_seen cur data (p ++ [s]) pre rest t g ht hpre,
          specNavGo_cons_seen cur data p pre rest t g ht hpre, ih]
      · have hpre' : pre.any (fun u => u.group == some g) = false :=
          Bool.of_not_eq_true hpre
        rw [specNavGo_cons_first cur data (p ++ [s]) pre rest t g ht hpre',
          specNavGo_cons_first cur data p pre rest t g ht hpre', ih, hfil]

theorem specNavGo_all_extend_seen (cur : String) (data : String → RenderDatum)
    (p : List NavSection) (s : NavSection) (g : String)
    (hs : s.group = some g) :
    ∀ (rest pre : List NavSection),
    pre.any (fun t => t.group == some g) = true →
    specNavGo cur data (p ++ [s]) pre rest = specNavGo cur data p pre rest
  | [], _, _ => rfl
  | t :: rest, pre, hpre => by
    have hpre' : (pre ++ [t]).any (fun u => u.group == some g) = true := by
      rw [List.any_append, hpre, Bool.true_or]
    have ih := specNavGo_all_extend_seen cur data p s g hs rest (pre ++ [t]) hpre'
    cases ht : t.group with
    | none =>
      rw [specNavGo_cons_none cur data (p ++ [s]) pre rest t ht,
        specNavGo_cons_none cur data p pre rest t ht, ih]
    | some g' =>
      by_cases hcond : pre.any (fun u => u.group == some g') = true
      · rw [specNavGo_cons_seen cur data (p ++ [s]) pre rest t g' ht hcond,
          specNavGo_cons_seen cur data p pre rest t g' ht hcond, ih]
      · have hcond' : pre.any (fun u => u.group == some g') = false :=
          Bool.of_not_eq_true hcond
        have hg : ¬ g' = g := by
          intro h
          subst h
          rw [hpre] at hcond'
          simp at hcond'
        have hfil := filter_append_drop p s g' (by
          rw [hs]
          exact beq_eq_false_iff_ne.mpr (fun h => hg (Option.some.inj h).symm))
        rw [specNavGo_cons_first cur data (p ++ [s]) pre rest t g' ht hcond',
          specNavGo_cons_first cur data p pre rest t g' ht hcond', ih, hfil]

theorem specNavGo_all_extend_fresh (cur : String) (data : String → RenderDatum)
    (p : List NavSection) (s : NavSection) (g : String)
    (hs : s.group = some g) :
    ∀ (rest pre : List NavSection),
    pre.any (fun t => t.group == some g) = false →
    specNavGo cur data (p ++ [s]) pre rest =
      pushToGroup g (mkNavItem cur data s) (specNavGo cur data p pre rest)
  | [], pre, _ => rfl
  | t :: rest, pre, hpre => by
    cases ht : t.group with
    | none =>
      have hpre' : (pre ++ [t]).any (fun u => u.group == some g) = false := by
        rw [List.any_append, hpre, Bool.false_or]
        simp [List.any_cons, ht]
      have ih := specNavGo_all_extend_fresh cur data p s g hs rest (pre ++ [t]) hpre'
      rw [specNavGo_cons_none cur data (p ++ [s]) pre rest t ht,
        specNavGo_cons_none cur data p pre rest t ht, ih]
      rfl
    | some g' =>
      by_cases hg : g' = g
      · subst hg
        have hpre'' : (pre ++ [t]).any (fun u => u.group == some g') = true := by
          rw [List.any_append, hpre, Bool.false_or]
          simp [List.any_cons, ht]
        rw [specNavGo_cons_first cur data (p ++ [s]) pre rest t g' ht hpre,
          specNavGo_cons_first cur data p pre rest t g' ht hpre,
          specNavGo_all_extend_seen cur data p s g' hs rest (pre ++ [t]) hpre'']
        have hfil : (p ++ [s]).filter (fun u => u.group == some g') =
            p.filter (fun u => u.group == some g') ++ [s] := by
          rw [List.filter_append]
          have hsg : (s.group == some g') = true := by simp [hs]
          simp [List.filter_cons, hsg]
        rw [hfil, List.map_append, pushToGroup]
        simp
      · have hgs : (t.group == some g) = false := by
          rw [ht]
          exact beq_eq_false_iff_ne.mpr (fun h => hg (Option.some.inj h))
        have hpre' : (pre ++ [t]).any (fun u => u.group == some g) = false := by
          rw [List.any_append, hpre, Bool.false_or]
          simp [List.any_cons, hgs]
        have ih := specNavGo_all_extend_fresh cur data p s g hs rest (pre ++ [t]) hpre'
        have hfil := filter_append_drop p s g' (by
          rw [hs]
          exact beq_eq_false_iff_ne.mpr (fun h => hg (Option.some.inj h).symm))
        by_cases hcond : pre.any (fun u => u.group == some g') = true
        · rw [specNavGo_cons_seen cur data (p ++ [s]) pre rest t g' ht hcond,
            specNavGo_cons_seen cur data p pre rest t g' ht hcond, ih]
        · have hcond' : pre.any (fun u => u.group == some g') = false :=
            Bool.of_not_eq_true hcond
          rw [specNavGo_cons_first cur data (p ++ [s]) pre rest t g' ht hcond',
            specNavGo_cons_first cur data p pre rest t g' ht hcond', ih, hfil,
            pushToGroup]
          rw [if_neg hg]

theorem hasGroup_specNavGo_imp (cur : String) (data : String → RenderDatum)
    (all : List NavSection) (g : String) :
    ∀ (rest pre : List NavSection),
    hasGroup g (specNavGo cur data all pre rest) = true →
    rest.any (fun t => t.group == some g) = true
  | [], pre, h => by simp [specNavGo, hasGroup] at h
  | t :: rest, pre, h => by
    rw [List.any_cons]
    cases ht : t.group with
    | none =>
      rw [specNavGo_cons_none cur data all pre rest t ht] at h
      have : hasGroup g (specNavGo cur data all (pre ++ [t]) rest) = true := by
        simpa [hasGroup, List.any_cons] using h
      rw [hasGroup_specNavGo_imp cur data all g rest (pre ++ [t]) this,
        Bool.or_true]
    | some g' =>
      by_cases hpre : pre.any (fun u => u.group == some g') = true
      · rw [specNavGo_cons_seen cur data all pre rest t g' ht hpre] at h
        rw [hasGroup_specNavGo_imp cur data all g rest (pre ++ [t]) h,
          Bool.or_true]
      · have hpre' : pre.any (fun u => u.group == some g') = false :=
          Bool.of_not_eq_true hpre
        rw [specNavGo_cons_first cur data all pre rest t g' ht hpre'] at h
        by_cases hg : g' = g
        · subst hg
          simp [ht]
        · have h' : hasGroup g (specNavGo cur data all (pre ++ [t]) rest) = true := by
            have hgg : (g' == g) = false := by simp [hg]
            simpa [hasGroup, List.any_cons, hgg] using h
          rw [hasGroup_specNavGo_imp cur data all g rest (pre ++ [t]) h',
            Bool.or_true]

theorem hasGroup_specNavGo_of_mem (cur : String) (data : String → RenderDatum)
    (all : List NavSection) (g : String) :
    ∀ (rest pre : List NavSection),
    rest.any (fun t => t.group == some g) = true →
    pre.any (fun t => t.group == some g) = false →
    hasGroup g (specNavGo cur data all pre rest) = true
  | [], pre, hany, _ => by simp at hany
  | t :: rest, pre, hany, hpre => by
    by_cases htg : (t.group == some g) = true
    · have ht : t.group = some g := by simpa using htg
      rw [specNavGo_cons_first cur data all pre rest t g ht hpre]
      simp [hasGroup, List.any_cons]
    · have htg' : (t.group == some g) = false := Bool.of_not_eq_true htg
      have hany' : rest.any (fun u => u.group == some g) = true := by
        rw [List.any_cons, htg', Bool.false_or] at hany
        exact hany
      have hpre' : (pre ++ [t]).any (fun u => u.group == some g) = false := by
        rw [List.any_append, hpre, Bool.false_or]
        simp [List.any_cons, htg']
      have ih := hasGroup_specNavGo_of_mem cur data all g rest (pre ++ [t]) hany' hpre'
      cases ht : t.group with
      | none =>
        rw [specNavGo_cons_none cur data all pre rest t ht]
        simpa [hasGroup, List.any_cons] using ih
      | some g' =>
        by_cases hcond : pre.any (fun u => u.group == some g') = true
        · rw [specNavGo_cons_seen cur data all pre rest t g' ht hcond]
          exact ih
        · have hcond' : pre.any (fun u => u.group == some g') = false :=
            Bool.of_not_eq_true hcond
          rw [specNavGo_cons_first cur data all pre rest t g' ht hcond']
          simpa [hasGroup, List.any_cons] using Or.inr ih

theorem buildNavStep_none (cur : String) (data : String → RenderDatum)
    (entries : List NavEntry) (s : NavSection) (hs : s.group = none) :
    buildNavStep cur data entries s =
      entries ++ [.item (mkNavItem cur data s)] := by
  rw [buildNavStep, hs]

theorem buildNavStep_some (cur : String) (data : String → RenderDatum)
    (entries : List NavEntry) (s : NavSection) (g : String)
    (hs : s.group = some g) :
    buildNavStep cur data entries s =
      if hasGroup g entries = true then
        pushToGroup g (mkNavItem cur data s) entries
      else entries ++ [.group g [mkNavItem cur data s]] := by
  rw [buildNavStep, hs]

theorem specNav_snoc (cur : String) (data : String → RenderDatum)
    (p : List NavSection) (s : NavSection) :
    specNav (p ++ [s]) cur data =
      buildNavStep cur data (specNav p cur data) s := by
  unfold specNav
  rw [specNavGo_append cur data (p ++ [s]) p [s] []]
  cases hs : s.group with
  | none =>
    rw [specNavGo_all_extend_ungrouped cur data p s hs p []]
    rw [List.nil_append, specNavGo_cons_none cur data (p ++ [s]) p [] s hs,
      buildNavStep_none cur data _ s hs]
    rfl
  | some g =>
    have hnilany : ([] : List NavSection).any (fun t => t.group == some g) = false := rfl
    rw [specNavGo_all_extend_fresh cur data p s g hs p [] hnilany,
      buildNavStep_some cur data _ s g hs]
    by_cases hany : p.any (fun t => t.group == some g) = true
    · rw [List.nil_append, specNavGo_cons_seen cur data (p ++ [s]) p [] s g hs hany]
      have hhas : hasGroup g (specNavGo cur data p [] p) = true :=
        hasGroup_specNavGo_of_mem cur data p g p [] hany rfl
      rw [if_pos hhas]
      simp [specNavGo]
    · have hany' : p.any (fun t => t.group == some g) = false :=
        Bool.of_not_eq_true hany
      have hhas : hasGroup g (specNavGo cur data p [] p) = false := by
        by_cases h : hasGroup g (specNavGo cur data p [] p) = true
        · exact absurd (hasGroup_specNavGo_imp cur data p g p [] h) hany
        · exact Bool.of_not_eq_true h
      rw [pushToGroup_of_hasGroup_false g _ _ hhas, if_neg (by simp [hhas])]
      rw [List.nil_append, specNavGo_cons_first cur data (p ++ [s]) p [] s g hs hany']
      have hfilp : p.filter (fun t => t.group == some g) = [] := by
        rw [List.filter_eq_nil_iff]
        intro t ht
        have := (List.any_eq_false.mp hany') t ht
        simp [this]
      have hfil : (p ++ [s]).filter (fun t => t.group == some g) = [s] := by
        rw [List.filter_append, hfilp, List.nil_append]
        have hsg : (s.group == some g) = true := by simp [hs]
        simp [List.filter_cons, hsg]
      rw [hfil]
      simp [specNavGo]

theorem generateModel_sc (cfg : GenConfig) (idx : SpecIndex)
    (prev : Option Manifest) (plan : List Section)
    (writer : Section → Option SectionOutput) (fs0 : List (String × String))
    (now : String) (hsc : shortCircuitB cfg idx prev = true) :
    generateModel cfg idx prev plan writer fs0 now =
      { fs := fs0, written := [], manifestWritten := none, failures := [] } := by
  simp only [generateModel, hsc, if_true]

theorem generateModel_cached (cfg : GenConfig) (idx : SpecIndex)
    (prev : Option Manifest) (plan : List Section)
    (writer : Section → Option SectionOutput) (fs0 : List (String × String))
    (now : String) (hsc : shortCircuitB cfg idx prev = false)
    (hemp : (staleSections cfg idx prev plan).isEmpty = true) :
    generateModel cfg idx prev plan writer fs0 now =
      { fs := fs0, written := [],
        manifestWritten := some (mkManifest (sortByOrder plan) idx
          (computeSpecHash idx) (computeInstructionsHash cfg) now),
        failures := [] } := by
  simp only [generateModel, hsc, Bool.false_eq_true, if_false, hemp, if_true]

theorem generateModel_main (cfg : GenConfig) (idx : SpecIndex)
    (prev : Option Manifest) (plan : List Section)
    (writer : Section → Option SectionOutput) (fs0 : List (String × String))
    (now : String) (hsc : shortCircuitB cfg idx prev = false)
    (hne : (staleSections cfg idx prev plan).isEmpty = false) :
    generateModel cfg idx prev plan writer fs0 now =
      { fs :=
          (match prev with
           | none =>
             ((sortByOrder plan).filterMap (fun s =>
               (getA s.id (buildResults writer
                 (sortByOrder (staleSections cfg idx prev plan)))).map
                   (fun md => (s.outputPath, md ++ "\n")))).foldl
               (fun fs w => mapSet fs w.1 w.2) fs0
           | some m =>
             m.sections.foldl (fun fs kc =>
               if kc.2.outputPath ∈ (sortByOrder plan).map (fun s => s.outputPath)
               then fs
               else fsDel fs kc.2.outputPath)
               (((sortByOrder plan).filterMap (fun s =>
                 (getA s.id (buildResults writer
                   (sortByOrder (staleSections cfg idx prev plan)))).map
                     (fun md => (s.outputPath, md ++ "\n")))).foldl
                 (fun fs w => mapSet fs w.1 w.2) fs0))
        written :=
          ((sortByOrder plan).filterMap (fun s =>
            (getA s.id (buildResults writer
              (sortByOrder (staleSections cfg idx prev plan)))).map
                (fun md => (s.outputPath, md ++ "\n")))).map (fun w => w.1)
        manifestWritten := some (mkManifest (sortByOrder plan) idx
          (computeSpecHash idx) (computeInstructionsHash cfg) now)
        failures := failedIds writer
          (sortByOrder (staleSections cfg idx prev plan)) } := by
  cases prev with
  | none =>
    simp only [generateModel, hsc, Bool.false_eq_true, if_false, hne]
  | some m =>
    simp only [generateModel, hsc, Bool.false_eq_true, if_false, hne]

/-- Claim C9: for every spec index, changing only schema definitions (for
example `Order`) while leaving `info`, `servers` and `tags` unchanged does
not change `computeSectionHash` for any section of type `overview` — the
overview branch reads only `info`, `servers` and the tag names and
descriptions. -/
theorem c9_overview_hash_ignores_schemas (s : Section) (idx idx' : SpecIndex)
    (hty : s.type = SectionType.overview) (hinfo : idx.info = idx'.info)
    (hservers : idx.servers = idx'.servers) (htags : idx.tags = idx'.tags) :
    computeSectionHash s idx = computeSectionHash s idx' := by
  unfold computeSectionHash hashParts
  rw [hty]
  simp only [hinfo, hservers, htags]

/-- Witness for C9 at a concrete index pair differing exactly in the
definition of schema `Order`. -/
theorem c9_overview_hash_ignores_schemas_witness :
    (SectionType.overview = SectionType.overview) ∧
    computeSectionHash
      ⟨"overview", "Overview", "index.md", SectionType.overview, "", none,
        none, none, 0⟩
      ⟨JsVal.jobj [("title", JsVal.jstr "T")], JsVal.jarr [],
        [⟨"pets", some "Pet ops"⟩],
        [("Order", JsVal.jobj [("type", JsVal.jstr "object")])], [],
        JsVal.jarr []⟩ =
    computeSectionHash
      ⟨"overview", "Overview", "index.md", SectionType.overview, "", none,
        none, none, 0⟩
      ⟨JsVal.jobj [("title", JsVal.jstr "T")], JsVal.jarr [],
        [⟨"pets", some "Pet ops"⟩],
        [("Order", JsVal.jobj [("type", JsVal.jstr "string")])], [],
        JsVal.jarr []⟩ :=
  ⟨rfl, c9_overview_hash_ignores_schemas _ _ _ rfl rfl rfl rfl⟩

/-- Claim C6 (code bug evidence): `updateManifest` writes, for a planned
section carrying a title, a group and an order, a manifest entry holding
only `contentHash`, `outputPath` and `generatedAt` — `title`, `group` and
`order` are absent, although the manifest schema, the renderer (which reads
them for navigation titles, grouping and ordering) and the repository's
tests all expect them. -/
theorem c6_updateManifest_drops_title_group_order :
    getA "tag:pets"
      (mkManifest
        [⟨"tag:pets", "Pets", "endpoints/pets.md", SectionType.endpointGroup,
          "", some "Resources", some ["pets"], some ["Pet"], 2⟩]
        ⟨JsVal.jobj [], JsVal.jarr [], [], [], [], JsVal.jarr []⟩
        "spec" "ins" "2024-01-01T00:00:00.000Z").sections =
      some
        { contentHash := computeSectionHash
            ⟨"tag:pets", "Pets", "endpoints/pets.md", SectionType.endpointGroup,
              "", some "Resources", some ["pets"], some ["Pet"], 2⟩
            ⟨JsVal.jobj [], JsVal.jarr [], [], [], [], JsVal.jarr []⟩
          outputPath := "endpoints/pets.md"
          title := none
          group := none
          order := none
          generatedAt := "2024-01-01T00:00:00.000Z" } := rfl

/-- Claim C1 counterexample: two spec indexes that are logically equal —
identical fields except that the `info` object holds the same two key-value
pairs in swapped insertion order — produce different `computeSectionHash`
results for an `overview` section, because `JSON.stringify` serializes keys
in insertion order and no key sorting is applied. -/
theorem c1_counterexample :
    (⟨JsVal.jobj [("title", JsVal.jstr "T"), ("version", JsVal.jstr "1")],
        JsVal.jarr [], [], [], [], JsVal.jarr []⟩ : SpecIndex).info =
      JsVal.jobj [("title", JsVal.jstr "T"), ("version", JsVal.jstr "1")] ∧
    (⟨JsVal.jobj [("version", JsVal.jstr "1"), ("title", JsVal.jstr "T")],
        JsVal.jarr [], [], [], [], JsVal.jarr []⟩ : SpecIndex).info =
      JsVal.jobj [("version", JsVal.jstr "1"), ("title", JsVal.jstr "T")] ∧
    computeSectionHash
      ⟨"overview", "Overview", "index.md", SectionType.overview, "", none,
        none, none, 0⟩
      ⟨JsVal.jobj [("title", JsVal.jstr "T"), ("version", JsVal.jstr "1")],
        JsVal.jarr [], [], [], [], JsVal.jarr []⟩ ≠
    computeSectionHash
      ⟨"overview", "Overview", "index.md", SectionType.overview, "", none,
        none, none, 0⟩
      ⟨JsVal.jobj [("version", JsVal.jstr "1"), ("title", JsVal.jstr "T")],
        JsVal.jarr [], [], [], [], JsVal.jarr []⟩ := by
  refine ⟨rfl, rfl, ?_⟩
  decide

/-- Claim C1 amended: the hash is a deterministic function of the stored
index, and the `schemas` branch is invariant under the schemas map's
insertion (iteration) order because its entries are sorted by name before
serialization — but object-key insertion order inside the JSON values is
not canonicalized (see the counterexample). -/
theorem c1_amended_schemas_order_independent (s : Section)
    (idx idx' : SpecIndex) (hty : s.type = SectionType.schemas)
    (hperm : idx.schemas.Perm idx'.schemas)
    (hnd : (idx.schemas.map (fun kv => kv.1)).Nodup) :
    computeSectionHash s idx = computeSectionHash s idx' := by
  unfold computeSectionHash hashParts
  rw [hty]
  simp only []
  rw [sortPairs_congr_of_perm idx.schemas idx'.schemas hperm hnd]

/-- Witness for the amended C1 at a concrete pair of schema maps holding
the same entries in swapped insertion order. -/
theorem c1_amended_schemas_order_independent_witness :
    (SectionType.schemas = SectionType.schemas) ∧
    ([("B", JsVal.jnull), ("A", JsVal.jnull)].Perm
      [("A", JsVal.jnull), ("B", JsVal.jnull)]) ∧
    computeSectionHash
      ⟨"schemas", "Schemas", "schemas.md", SectionType.schemas, "", none,
        none, none, 3⟩
      ⟨JsVal.jobj [], JsVal.jarr [], [],
        [("B", JsVal.jnull), ("A", JsVal.jnull)], [], JsVal.jarr []⟩ =
    computeSectionHash
      ⟨"schemas", "Schemas", "schemas.md", SectionType.schemas, "", none,
        none, none, 3⟩
      ⟨JsVal.jobj [], JsVal.jarr [], [],
        [("A", JsVal.jnull), ("B", JsVal.jnull)], [], JsVal.jarr []⟩ :=
  ⟨rfl, List.Perm.swap _ _ _,
    c1_amended_schemas_order_independent _ _ _ rfl (List.Perm.swap _ _ _)
      (by decide)⟩

/-- Claim C7 counterexample: the body "## -hi" contains one level-2
heading whose derived slug is "-hi", while the spec's pipeline (which trims
leading and trailing hyphens) yields "hi" — `slugify`'s final `.trim()`
strips whitespace, not hyphens, so edge hyphens survive. -/
theorem c7_counterexample :
    extractHeadings "## -hi" = [⟨2, "-hi", "-hi"⟩] ∧
    specClaimedSlug "-hi" = "hi" ∧
    slugify "-hi" ≠ specClaimedSlug "-hi" := by
  refine ⟨?_, ?_, ?_⟩ <;> decide

/-- Claim C7 amended: for every heading extracted from a section body, the
stored slug equals the heading text under the pipeline lower-case → strip
characters outside word/space/hyphen → collapse whitespace runs to single
hyphens → collapse hyphen runs, with no edge-hyphen trimming; and for
heading text free of HTML tags, the id attribute emitted by the renderer
equals that slug exactly. -/
theorem c7_amended_slug_rule (body : String) (h : Heading)
    (hmem : h ∈ extractHeadings body) :
    h.slug = specAmendedSlug h.text ∧
    ('<' ∉ h.text.data → headingId h.text = h.slug) := by
  unfold extractHeadings at hmem
  obtain ⟨line, _, hmatch⟩ := List.mem_filterMap.mp hmem
  obtain ⟨m, hm, heq⟩ := Option.map_eq_some'.mp hmatch
  obtain ⟨n, raw⟩ := m
  have htext : h.text = stripBackticks raw := by rw [← heq]
  have hslug : h.slug = slugify raw := by rw [← heq]
  constructor
  · rw [hslug, htext, ← slugify_eq_specAmendedSlug, slugify_stripBackticks]
  · intro hlt
    rw [htext] at hlt
    unfold headingId
    rw [htext, stripTags_of_no_lt _ hlt]
    rw [hslug]
    show slugify (String.mk (stripBackticks raw).data) = slugify raw
    rw [show String.mk (stripBackticks raw).data = stripBackticks raw from rfl,
      slugify_stripBackticks]

/-- Witness for the amended C7 at the concrete body "## Hello World". -/
theorem c7_amended_slug_rule_witness :
    ((⟨2, "Hello World", "hello-world"⟩ : Heading) ∈
      extractHeadings "## Hello World") ∧
    (("hello-world" : String) = specAmendedSlug "Hello World" ∧
     ('<' ∉ ("Hello World" : String).data →
       headingId "Hello World" = "hello-world")) :=
  ⟨by decide, c7_amended_slug_rule "## Hello World" ⟨2, "Hello World", "hello-world"⟩ (by decide)⟩

/-- Claim C2: any run that passes the short-circuit persists a manifest
with exactly one entry per plan section id, and every stored contentHash
(and outputPath, and timestamp) is the fresh recomputation for that
section — regardless of which sections were cached, regenerated, or had a
failed writer invocation. -/
theorem c2_manifest_completeness (cfg : GenConfig) (idx : SpecIndex)
    (prev : Option Manifest) (plan : List Section)
    (writer : Section → Option SectionOutput) (fs0 : List (String × String))
    (now : String) (hsc : shortCircuitB cfg idx prev = false)
    (hids : (plan.map (fun s => s.id)).Nodup) :
    ∃ M, (generateModel cfg idx prev plan writer fs0 now).manifestWritten =
        some M ∧
      (M.sections.map (fun kv => kv.1)).Perm (plan.map (fun s => s.id)) ∧
      ((M.sections.map (fun kv => kv.1)).Nodup) ∧
      ∀ s ∈ plan, getA s.id M.sections =
        some { contentHash := computeSectionHash s idx
               outputPath := s.outputPath
               title := none
               group := none
               order := none
               generatedAt := now } := by
  have hperm : (sortByOrder plan).Perm plan := List.perm_insertionSort _ plan
  have hids' : ((sortByOrder plan).map (fun s => s.id)).Nodup :=
    (hperm.map (fun s => s.id)).nodup_iff.mpr hids
  have hsec := mkManifest_sections (sortByOrder plan) idx (computeSpecHash idx)
    (computeInstructionsHash cfg) now hids'
  have hwritten : (generateModel cfg idx prev plan writer fs0 now).manifestWritten =
      some (mkManifest (sortByOrder plan) idx (computeSpecHash idx)
        (computeInstructionsHash cfg) now) := by
    cases hemp : (staleSections cfg idx prev plan).isEmpty with
    | true => rw [generateModel_cached cfg idx prev plan writer fs0 now hsc hemp]
    | false => rw [generateModel_main cfg idx prev plan writer fs0 now hsc hemp]
  refine ⟨_, hwritten, ?_, ?_, ?_⟩
  · rw [hsec, List.map_map]
    exact (hperm.map (fun s => s.id))
  · rw [hsec, List.map_map]
    exact hids'
  · intro s hs
    rw [hsec]
    exact getA_map_of_nodup (sortByOrder plan) _ s (hperm.mem_iff.mpr hs) hids'

/-- Witness for C2 on a concrete one-section plan with a failing writer. -/
theorem c2_manifest_completeness_witness :
    (shortCircuitB ⟨false, none⟩
      ⟨JsVal.jobj [], JsVal.jarr [], [], [], [], JsVal.jarr []⟩ none = false) ∧
    ∃ M, (generateModel ⟨false, none⟩
        ⟨JsVal.jobj [], JsVal.jarr [], [], [], [], JsVal.jarr []⟩ none
        [⟨"overview", "Overview", "index.md", SectionType.overview, "", none,
          none, none, 0⟩]
        (fun _ => none) [] "t0").manifestWritten = some M ∧
      ((M.sections.map (fun kv => kv.1)).Perm
        ([⟨"overview", "Overview", "index.md", SectionType.overview, "", none,
          none, none, 0⟩].map (fun s => Section.id s))) ∧
      ((M.sections.map (fun kv => kv.1)).Nodup) ∧
      ∀ s ∈ [(⟨"overview", "Overview", "index.md", SectionType.overview, "",
          none, none, none, 0⟩ : Section)], getA s.id M.sections =
        some { contentHash := computeSectionHash s
                 ⟨JsVal.jobj [], JsVal.jarr [], [], [], [], JsVal.jarr []⟩
               outputPath := s.outputPath
               title := none
               group := none
               order := none
               generatedAt := "t0" } :=
  ⟨rfl, c2_manifest_completeness _ _ _ _ _ _ _ rfl (by decide)⟩

/-- Claim C3: with the force flag unset, a manifest whose specHash and
instructionsHash both match the fresh hashes makes `generate` stop before
planning with no file writes and no manifest rewrite; consequently the
second of two consecutive runs with unchanged spec and instructions (run
on the state the first run left behind) performs zero file writes. -/
theorem c3_short_circuit_idempotence (cfg : GenConfig) (idx : SpecIndex)
    (prev : Option Manifest) (plan plan' : List Section)
    (writer writer' : Section → Option SectionOutput)
    (fs0 : List (String × String)) (now now' : String)
    (hforce : cfg.force = false) :
    (∀ m : Manifest, prev = some m →
      m.specHash = computeSpecHash idx →
      m.instructionsHash = computeInstructionsHash cfg →
      generateModel cfg idx prev plan writer fs0 now =
        { fs := fs0, written := [], manifestWritten := none, failures := [] }) ∧
    (generateModel cfg idx
        ((generateModel cfg idx prev plan writer fs0 now).manifestWritten.or prev)
        plan' writer' (generateModel cfg idx prev plan writer fs0 now).fs now' =
      { fs := (generateModel cfg idx prev plan writer fs0 now).fs,
        written := [], manifestWritten := none, failures := [] }) := by
  constructor
  · intro m hm h1 h2
    apply generateModel_sc
    rw [hm]
    simp [shortCircuitB, hforce, h1, h2]
  · have hMsc : ∀ sp now₀,
        shortCircuitB cfg idx (some (mkManifest sp idx (computeSpecHash idx)
          (computeInstructionsHash cfg) now₀)) = true := by
      intro sp now₀
      simp [shortCircuitB, mkManifest, hforce]
    cases hsc : shortCircuitB cfg idx prev with
    | true =>
      rw [generateModel_sc cfg idx prev plan writer fs0 now hsc]
      simp only [Option.or]
      exact generateModel_sc cfg idx prev plan' writer' fs0 now' hsc
    | false =>
      cases hemp : (staleSections cfg idx prev plan).isEmpty with
      | true =>
        rw [generateModel_cached cfg idx prev plan writer fs0 now hsc hemp]
        simp only [Option.or]
        exact generateModel_sc cfg idx _ plan' writer' fs0 now'
          (hMsc (sortByOrder plan) now)
      | false =>
        rw [generateModel_main cfg idx prev plan writer fs0 now hsc hemp]
        simp only [Option.or]
        exact generateModel_sc cfg idx _ plan' writer' _ now'
          (hMsc (sortByOrder plan) now)

/-- Witness for C3 at a concrete matching manifest. -/
theorem c3_short_circuit_idempotence_witness :
    ((∀ m : Manifest,
      some (⟨1, computeSpecHash ⟨JsVal.jobj [], JsVal.jarr [], [], [], [],
          JsVal.jarr []⟩, sha256 "", []⟩ : Manifest) = some m →
      m.specHash = computeSpecHash
        ⟨JsVal.jobj [], JsVal.jarr [], [], [], [], JsVal.jarr []⟩ →
      m.instructionsHash = computeInstructionsHash ⟨false, none⟩ →
      generateModel ⟨false, none⟩
        ⟨JsVal.jobj [], JsVal.jarr [], [], [], [], JsVal.jarr []⟩
        (some ⟨1, computeSpecHash ⟨JsVal.jobj [], JsVal.jarr [], [], [], [],
          JsVal.jarr []⟩, sha256 "", []⟩) [] (fun _ => none) [] "t0" =
        { fs := [], written := [], manifestWritten := none, failures := [] }) ∧
     (generateModel ⟨false, none⟩
        ⟨JsVal.jobj [], JsVal.jarr [], [], [], [], JsVal.jarr []⟩
        ((generateModel ⟨false, none⟩
          ⟨JsVal.jobj [], JsVal.jarr [], [], [], [], JsVal.jarr []⟩
          (some ⟨1, computeSpecHash ⟨JsVal.jobj [], JsVal.jarr [], [], [], [],
            JsVal.jarr []⟩, sha256 "", []⟩) [] (fun _ => none) [] "t0").manifestWritten.or
          (some ⟨1, computeSpecHash ⟨JsVal.jobj [], JsVal.jarr [], [], [], [],
            JsVal.jarr []⟩, sha256 "", []⟩))
        [] (fun _ => none)
        (generateModel ⟨false, none⟩
          ⟨JsVal.jobj [], JsVal.jarr [], [], [], [], JsVal.jarr []⟩
          (some ⟨1, computeSpecHash ⟨JsVal.jobj [], JsVal.jarr [], [], [], [],
            JsVal.jarr []⟩, sha256 "", []⟩) [] (fun _ => none) [] "t0").fs "t1" =
      { fs := (generateModel ⟨false, none⟩
          ⟨JsVal.jobj [], JsVal.jarr [], [], [], [], JsVal.jarr []⟩
          (some ⟨1, computeSpecHash ⟨JsVal.jobj [], JsVal.jarr [], [], [], [],
            JsVal.jarr []⟩, sha256 "", []⟩) [] (fun _ => none) [] "t0").fs,
        written := [], manifestWritten := none, failures := [] })) :=
  c3_short_circuit_idempotence ⟨false, none⟩
    ⟨JsVal.jobj [], JsVal.jarr [], [], [], [], JsVal.jarr []⟩
    (some ⟨1, computeSpecHash ⟨JsVal.jobj [], JsVal.jarr [], [], [], [],
      JsVal.jarr []⟩, sha256 "", []⟩) [] [] (fun _ => none) (fun _ => none)
    [] "t0" "t1" rfl

/-- Claim C5 counterexample: a completed run in which no section is stale
(forceAll is false and the only planned section is cached) returns before
the orphan-reconciliation step, so a prior manifest entry whose outputPath
("old.md") is absent from the current plan is NOT deleted: the file still
exists after orchestration. -/
theorem c5_counterexample :
    (("old", (⟨"h", "old.md", none, none, none, "t"⟩ : ManifestEntry)) ∈
      (⟨1, "OLD", sha256 "",
        [("old", ⟨"h", "old.md", none, none, none, "t"⟩),
         ("s", ⟨computeSectionHash
              ⟨"s", "S", "new.md", SectionType.overview, "", none, none, none, 0⟩
              ⟨JsVal.jobj [], JsVal.jarr [], [], [], [], JsVal.jarr []⟩,
            "s.md", none, none, none, "t"⟩)]⟩ : Manifest).sections) ∧
    ("old.md" ∉ ([⟨"s", "S", "new.md", SectionType.overview, "", none, none,
        none, 0⟩] : List Section).map (fun s => s.outputPath)) ∧
    getA "old.md"
      (generateModel ⟨false, none⟩
        ⟨JsVal.jobj [], JsVal.jarr [], [], [], [], JsVal.jarr []⟩
        (some ⟨1, "OLD", sha256 "",
          [("old", ⟨"h", "old.md", none, none, none, "t"⟩),
           ("s", ⟨computeSectionHash
                ⟨"s", "S", "new.md", SectionType.overview, "", none, none, none, 0⟩
                ⟨JsVal.jobj [], JsVal.jarr [], [], [], [], JsVal.jarr []⟩,
              "s.md", none, none, none, "t"⟩)]⟩)
        [⟨"s", "S", "new.md", SectionType.overview, "", none, none, none, 0⟩]
        (fun _ => none) [("old.md", "x")] "t1").fs = some "x" := by
  refine ⟨by decide, by decide, ?_⟩
  decide

/-- Claim C5 amended: on every run that reaches the cleanup step — that is,
a run that passes the short-circuit AND has at least one stale section —
every prior-manifest outputPath absent from the current plan's outputPath
set is deleted from the file-system map (a missing file is a no-op); runs
with zero stale sections return early and skip orphan reconciliation. -/
theorem c5_amended_orphan_cleanup (cfg : GenConfig) (idx : SpecIndex)
    (m : Manifest) (plan : List Section)
    (writer : Section → Option SectionOutput) (fs0 : List (String × String))
    (now : String) (k : String) (c : ManifestEntry)
    (hsc : shortCircuitB cfg idx (some m) = false)
    (hne : (staleSections cfg idx (some m) plan).isEmpty = false)
    (hmem : (k, c) ∈ m.sections)
    (hout : c.outputPath ∉ plan.map (fun s => s.outputPath)) :
    getA c.outputPath
      (generateModel cfg idx (some m) plan writer fs0 now).fs = none := by
  rw [generateModel_main cfg idx (some m) plan writer fs0 now hsc hne]
  have hout' : c.outputPath ∉ (sortByOrder plan).map (fun s => s.outputPath) := by
    intro h
    exact hout (((List.perm_insertionSort _ plan).map _).mem_iff.mp h)
  exact getA_delfold_deleted _ _ m.sections _ ⟨(k, c), hmem, rfl⟩ hout'

/-- Witness for the amended C5: a stale run deletes the orphan "old.md". -/
theorem c5_amended_orphan_cleanup_witness :
    (shortCircuitB ⟨false, none⟩
      ⟨JsVal.jobj [], JsVal.jarr [], [], [], [], JsVal.jarr []⟩
      (some ⟨1, "OLD", sha256 "",
        [("old", ⟨"h", "old.md", none, none, none, "t"⟩)]⟩) = false) ∧
    ((staleSections ⟨false, none⟩
      ⟨JsVal.jobj [], JsVal.jarr [], [], [], [], JsVal.jarr []⟩
      (some ⟨1, "OLD", sha256 "",
        [("old", ⟨"h", "old.md", none, none, none, "t"⟩)]⟩)
      [⟨"s", "S", "new.md", SectionType.overview, "", none, none, none, 0⟩]).isEmpty
        = false) ∧
    getA "old.md"
      (generateModel ⟨false, none⟩
        ⟨JsVal.jobj [], JsVal.jarr [], [], [], [], JsVal.jarr []⟩
        (some ⟨1, "OLD", sha256 "",
          [("old", ⟨"h", "old.md", none, none, none, "t"⟩)]⟩)
        [⟨"s", "S", "new.md", SectionType.overview, "", none, none, none, 0⟩]
        (fun _ => none) [("old.md", "x")] "t1").fs = none :=
  ⟨by decide, by decide,
    c5_amended_orphan_cleanup ⟨false, none⟩
      ⟨JsVal.jobj [], JsVal.jarr [], [], [], [], JsVal.jarr []⟩
      ⟨1, "OLD", sha256 "", [("old", ⟨"h", "old.md", none, none, none, "t"⟩)]⟩
      [⟨"s", "S", "new.md", SectionType.overview, "", none, none, none, 0⟩]
      (fun _ => none) [("old.md", "x")] "t1" "old"
      ⟨"h", "old.md", none, none, none, "t"⟩ (by decide) (by decide)
      (by decide) (by decide)⟩

/-- Claim C10 (implicit): the content hash depends only on a section's
type-selected spec content (type, relatedTags, relatedSchemas), never on
its outputPath, title or group; consequently, in a non-forced run, a
planned section whose recomputed hash matches the manifest entry stored
under its id is classified cached and no file is written at its
outputPath — even when that path differs from the one stored in the
manifest entry. -/
theorem c10_staleness_ignores_output_path :
    (∀ (s s' : Section) (idx : SpecIndex),
      s.type = s'.type → s.relatedTags = s'.relatedTags →
      s.relatedSchemas = s'.relatedSchemas →
      computeSectionHash s idx = computeSectionHash s' idx) ∧
    (∀ (cfg : GenConfig) (idx : SpecIndex) (m : Manifest)
       (plan : List Section) (writer : Section → Option SectionOutput)
       (fs0 : List (String × String)) (now : String) (s : Section)
       (c : ManifestEntry),
      cfg.force = false →
      m.instructionsHash = computeInstructionsHash cfg →
      s ∈ plan →
      (plan.map (fun t => t.id)).Nodup →
      (plan.map (fun t => t.outputPath)).Nodup →
      getA s.id m.sections = some c →
      c.contentHash = computeSectionHash s idx →
      s.outputPath ∉
        (generateModel cfg idx (some m) plan writer fs0 now).written) := by
  constructor
  · intro s s' idx hty htags hsch
    unfold computeSectionHash hashParts
    rw [← hty, ← htags, ← hsch]
  · intro cfg idx m plan writer fs0 now s c hforce hins hsplan hids hpaths
      hcache hhash
    have hperm : (sortByOrder plan).Perm plan := List.perm_insertionSort _ plan
    have hforceAll : computeForceAll cfg (some m) = false := by
      simp [computeForceAll, hforce, hins]
    have hnotstale : s ∉ staleSections cfg idx (some m) plan := by
      intro hmem
      have hpred := List.of_mem_filter hmem
      rw [hforceAll] at hpred
      simp only [if_false, hcache] at hpred
      rw [hhash] at hpred
      simp at hpred
    cases hsc : shortCircuitB cfg idx (some m) with
    | true =>
      rw [generateModel_sc cfg idx (some m) plan writer fs0 now hsc]
      simp
    | false =>
      cases hemp : (staleSections cfg idx (some m) plan).isEmpty with
      | true =>
        rw [generateModel_cached cfg idx (some m) plan writer fs0 now hsc hemp]
        simp
      | false =>
        rw [generateModel_main cfg idx (some m) plan writer fs0 now hsc hemp]
        intro hmem
        simp only [List.mem_map] at hmem
        obtain ⟨w, hw, hwp⟩ := hmem
        obtain ⟨u, hu, hfu⟩ := List.mem_filterMap.mp hw
        obtain ⟨md, hmd, hwdef⟩ := Option.map_eq_some'.mp hfu
        have hupath : u.outputPath = s.outputPath := by
          rw [← hwp, ← hwdef]
        have hu' : u ∈ plan := hperm.mem_iff.mp hu
        have hus : u = s :=
          List.inj_on_of_nodup_map hpaths hu' hsplan hupath
        subst hus
        have hsome : (getA u.id (buildResults writer
            (sortByOrder (staleSections cfg idx (some m) plan)))).isSome = true := by
          rw [hmd]; rfl
        unfold buildResults at hsome
        rcases getA_buildResults_isSome writer u.id
            (sortByOrder (staleSections cfg idx (some m) plan)) [] hsome with
          h | h
        · simp [getA] at h
        · obtain ⟨t, ht, hid, _⟩ := h
          have ht₁ : t ∈ staleSections cfg idx (some m) plan :=
            (List.perm_insertionSort _ _).mem_iff.mp ht
          have ht₂ : t ∈ plan :=
            hperm.mem_iff.mp (List.mem_of_mem_filter ht₁)
          have : t = u := List.inj_on_of_nodup_map hids ht₂ hu' hid
          subst this
          exact hnotstale ht₁

/-- Witness for C10 on a concrete cached section whose stored outputPath
differs from its planned one. -/
theorem c10_staleness_ignores_output_path_witness :
    ((⟨false, none⟩ : GenConfig).force = false) ∧
    ((⟨1, "OLD", sha256 "",
        [("s", ⟨computeSectionHash
            ⟨"s", "S", "new.md", SectionType.overview, "", none, none, none, 0⟩
            ⟨JsVal.jobj [], JsVal.jarr [], [], [], [], JsVal.jarr []⟩,
          "stale-old-path.md", none, none, none, "t"⟩)]⟩ : Manifest).instructionsHash =
      computeInstructionsHash ⟨false, none⟩) ∧
    ("new.md" ∉
      (generateModel ⟨false, none⟩
        ⟨JsVal.jobj [], JsVal.jarr [], [], [], [], JsVal.jarr []⟩
        (some ⟨1, "OLD", sha256 "",
          [("s", ⟨computeSectionHash
              ⟨"s", "S", "new.md", SectionType.overview, "", none, none, none, 0⟩
              ⟨JsVal.jobj [], JsVal.jarr [], [], [], [], JsVal.jarr []⟩,
            "stale-old-path.md", none, none, none, "t"⟩)]⟩)
        [⟨"s", "S", "new.md", SectionType.overview, "", none, none, none, 0⟩]
        (fun _ => none) [] "t1").written) :=
  ⟨rfl, by decide,
    c10_staleness_ignores_output_path.2 ⟨false, none⟩
      ⟨JsVal.jobj [], JsVal.jarr [], [], [], [], JsVal.jarr []⟩
      ⟨1, "OLD", sha256 "",
        [("s", ⟨computeSectionHash
            ⟨"s", "S", "new.md", SectionType.overview, "", none, none, none, 0⟩
            ⟨JsVal.jobj [], JsVal.jarr [], [], [], [], JsVal.jarr []⟩,
          "stale-old-path.md", none, none, none, "t"⟩)]⟩
      [⟨"s", "S", "new.md", SectionType.overview, "", none, none, none, 0⟩]
      (fun _ => none) [] "t1"
      ⟨"s", "S", "new.md", SectionType.overview, "", none, none, none, 0⟩
      ⟨computeSectionHash
          ⟨"s", "S", "new.md", SectionType.overview, "", none, none, none, 0⟩
          ⟨JsVal.jobj [], JsVal.jarr [], [], [], [], JsVal.jarr []⟩,
        "stale-old-path.md", none, none, none, "t"⟩
      rfl (by decide) (by decide) (by decide) (by decide) (by decide) rfl⟩

/-- Claim C8: `buildNav` iterates sections in the given (plan) order and
equals the specification-side navigation: each ungrouped section is a
top-level item at its own position, and each grouped section is appended to
the single bucket of its label, created at the label's first occurrence;
in particular sections [A(group "X"), B(no group), C(group "X")] yield
[GroupX[A, C], B]. -/
theorem c8_buildNav_grouping :
    (∀ (sections : List NavSection) (currentPath : String)
       (data : String → RenderDatum),
      buildNav sections currentPath data = specNav sections currentPath data) ∧
    (buildNav
       [⟨"a", "a.md", "A", some "X"⟩, ⟨"b", "b.md", "B", none⟩,
        ⟨"c", "c.md", "C", some "X"⟩] "a.html"
       (fun i => if i = "a" then ⟨[], "a.html"⟩
                 else if i = "b" then ⟨[], "b.html"⟩ else ⟨[], "c.html"⟩) =
      [.group "X" [⟨"A", "a.html", true, some []⟩,
                   ⟨"C", "c.html", false, none⟩],
       .item ⟨"B", "b.html", false, none⟩]) := by
  constructor
  · intro sections cur data
    induction sections using List.reverseRecOn with
    | nil => rfl
    | append_singleton p s ih =>
      rw [specNav_snoc cur data p s, ← ih]
      unfold buildNav
      rw [List.foldl_append]
      rfl
  · decide

/-- Claim C4: a writer failure on one stale section is caught (the section
is logged among the failures), that section's outputPath is not written in
this run, and every other planned section's file content and written-status
are exactly what they would have been had that writer invocation succeeded
instead — no abort or cancellation of siblings. -/
theorem c4_writer_failure_isolated (cfg : GenConfig) (idx : SpecIndex)
    (prev : Option Manifest) (plan : List Section)
    (writer : Section → Option SectionOutput) (fs0 : List (String × String))
    (now : String) (s₀ : Section) (o₀ : SectionOutput)
    (hsc : shortCircuitB cfg idx prev = false)
    (hids : (plan.map (fun t => t.id)).Nodup)
    (hpaths : (plan.map (fun t => t.outputPath)).Nodup)
    (hmem : s₀ ∈ staleSections cfg idx prev plan)
    (hfail : writer s₀ = none) :
    s₀.id ∈ (generateModel cfg idx prev plan writer fs0 now).failures ∧
    s₀.outputPath ∉ (generateModel cfg idx prev plan writer fs0 now).written ∧
    ∀ s ∈ plan, s.id ≠ s₀.id →
      (getA s.outputPath (generateModel cfg idx prev plan writer fs0 now).fs =
        getA s.outputPath (generateModel cfg idx prev plan
          (fun t => if t.id = s₀.id then some o₀ else writer t) fs0 now).fs ∧
       (s.outputPath ∈ (generateModel cfg idx prev plan writer fs0 now).written ↔
        s.outputPath ∈ (generateModel cfg idx prev plan
          (fun t => if t.id = s₀.id then some o₀ else writer t) fs0 now).written)) := by
  have hne : (staleSections cfg idx prev plan).isEmpty = false := by
    cases hh : (staleSections cfg idx prev plan).isEmpty with
    | false => rfl
    | true =>
      rw [List.isEmpty_iff.mp hh] at hmem
      simp at hmem
  have hperm : (sortByOrder plan).Perm plan := List.perm_insertionSort _ plan
  have hSGperm : (sortByOrder (staleSections cfg idx prev plan)).Perm
      (staleSections cfg idx prev plan) := List.perm_insertionSort _ _
  have hSG : s₀ ∈ sortByOrder (staleSections cfg idx prev plan) :=
    hSGperm.mem_iff.mpr hmem
  have hs₀plan : s₀ ∈ plan :=
    hperm.mem_iff.mp (List.mem_of_mem_filter hmem)
  have hres0 : getA s₀.id (buildResults writer
      (sortByOrder (staleSections cfg idx prev plan))) = none := by
    cases hr : getA s₀.id (buildResults writer
        (sortByOrder (staleSections cfg idx prev plan))) with
    | none => rfl
    | some v =>
      have hsome : (getA s₀.id (buildResults writer
          (sortByOrder (staleSections cfg idx prev plan)))).isSome = true := by
        rw [hr]; rfl
      unfold buildResults at hsome
      rcases getA_buildResults_isSome writer s₀.id _ [] hsome with h | h
      · simp [getA] at h
      · obtain ⟨t, ht, htid, htsome⟩ := h
        have ht₂ : t ∈ plan :=
          hperm.mem_iff.mp (List.mem_of_mem_filter (hSGperm.mem_iff.mp ht))
        have : t = s₀ := List.inj_on_of_nodup_map hids ht₂ hs₀plan htid
        subst this
        rw [hfail] at htsome
        simp at htsome
  have hresAgree : ∀ k, k ≠ s₀.id →
      getA k (buildResults (fun t => if t.id = s₀.id then some o₀ else writer t)
        (sortByOrder (staleSections cfg idx prev plan))) =
      getA k (buildResults writer
        (sortByOrder (staleSections cfg idx prev plan))) := by
    intro k hk
    unfold buildResults
    apply getA_buildResults_congr
    · rfl
    · intro t _ htk
      rw [htk, if_neg hk]
  have hwmem : ∀ (res : List (String × String)) (p : String),
      (p ∈ (((sortByOrder plan).filterMap (fun u =>
        (getA u.id res).map (fun md => (u.outputPath, md ++ "\n")))).map
          (fun w => w.1)) ↔
      ∃ u ∈ sortByOrder plan, (getA u.id res).isSome = true ∧
        u.outputPath = p) := by
    intro res p
    constructor
    · intro hpm
      obtain ⟨w, hw, hwp⟩ := List.mem_map.mp hpm
      obtain ⟨u, hu, hfu⟩ := List.mem_filterMap.mp hw
      obtain ⟨md, hmd, hwdef⟩ := Option.map_eq_some'.mp hfu
      exact ⟨u, hu, by rw [hmd]; rfl, by rw [← hwp, ← hwdef]⟩
    · rintro ⟨u, hu, hsome, hup⟩
      obtain ⟨md, hmd⟩ := Option.isSome_iff_exists.mp hsome
      exact List.mem_map.mpr ⟨(u.outputPath, md ++ "\n"),
        List.mem_filterMap.mpr ⟨u, hu, by rw [hmd]; rfl⟩, hup⟩
  refine ⟨?_, ?_, ?_⟩
  · rw [generateModel_main cfg idx prev plan writer fs0 now hsc hne]
    unfold failedIds
    exact List.mem_filterMap.mpr ⟨s₀, hSG, by simp [hfail]⟩
  · rw [generateModel_main cfg idx prev plan writer fs0 now hsc hne]
    intro hpm
    obtain ⟨u, hu, hsome, hup⟩ := (hwmem _ _).mp hpm
    have hu₂ : u ∈ plan := hperm.mem_iff.mp hu
    have : u = s₀ := List.inj_on_of_nodup_map hpaths hu₂ hs₀plan hup
    subst this
    rw [hres0] at hsome
    simp at hsome
  · intro s hsplan hneid
    have hsPS : s ∈ sortByOrder plan := hperm.mem_iff.mpr hsplan
    have hs_iff : ∀ (res : List (String × String)),
        ((∃ u ∈ sortByOrder plan, (getA u.id res).isSome = true ∧
          u.outputPath = s.outputPath) ↔ (getA s.id res).isSome = true) := by
      intro res
      constructor
      · rintro ⟨u, hu, hsome, hup⟩
        have hu₂ : u ∈ plan := hperm.mem_iff.mp hu
        have : u = s := List.inj_on_of_nodup_map hpaths hu₂ hsplan hup
        subst this
        exact hsome
      · intro hsome
        exact ⟨s, hsPS, hsome, rfl⟩
    have hfsW : ∀ (fsa : List (String × String)),
        getA s.outputPath
          (((sortByOrder plan).filterMap (fun u =>
            (getA u.id (buildResults writer
              (sortByOrder (staleSections cfg idx prev plan)))).map
                (fun md => (u.outputPath, md ++ "\n")))).foldl
            (fun fs w => mapSet fs w.1 w.2) fsa) =
        getA s.outputPath
          (((sortByOrder plan).filterMap (fun u =>
            (getA u.id (buildResults
              (fun t => if t.id = s₀.id then some o₀ else writer t)
              (sortByOrder (staleSections cfg idx prev plan)))).map
                (fun md => (u.outputPath, md ++ "\n")))).foldl
            (fun fs w => mapSet fs w.1 w.2) fsa) := by
      intro fsa
      rw [getA_foldl_writes, getA_foldl_writes, foldl_filterMap, foldl_filterMap]
      apply foldl_congr_mem
      intro acc u hu
      by_cases hu0 : u.id = s₀.id
      · have hu₂ : u ∈ plan := hperm.mem_iff.mp hu
        have hus₀ : u = s₀ := List.inj_on_of_nodup_map hids hu₂ hs₀plan hu0
        subst hus₀
        rw [hres0]
        have hpne : u.outputPath ≠ s.outputPath := by
          intro h
          have : u = s := List.inj_on_of_nodup_map hpaths hu₂ hsplan h
          exact hneid (by rw [this])
        cases hr' : getA u.id (buildResults
            (fun t => if t.id = u.id then some o₀ else writer t)
            (sortByOrder (staleSections cfg idx prev plan))) with
        | none => rfl
        | some md =>
          simp only [Option.map_some', Option.map_none']
          rw [if_neg hpne]
      · rw [hresAgree u.id hu0]
    refine ⟨?_, ?_⟩
    · rw [generateModel_main cfg idx prev plan writer fs0 now hsc hne,
        generateModel_main cfg idx prev plan _ fs0 now hsc hne]
      cases prev with
      | none => exact hfsW fs0
      | some m =>
        exact getA_delfold_congr _ _ m.sections _ _ (hfsW fs0)
    · rw [generateModel_main cfg idx prev plan writer fs0 now hsc hne,
        generateModel_main cfg idx prev plan _ fs0 now hsc hne]
      rw [hwmem, hwmem, hs_iff, hs_iff, hresAgree s.id hneid]

/-- Witness for C4 on a two-section plan where section "a" fails and
section "b" succeeds. -/
theorem c4_writer_failure_isolated_witness :
    (("a" : String) ∈ (generateModel ⟨false, none⟩
      ⟨JsVal.jobj [], JsVal.jarr [], [], [], [], JsVal.jarr []⟩ none
      [⟨"a", "A", "a.md", SectionType.overview, "", none, none, none, 0⟩,
       ⟨"b", "B", "b.md", SectionType.auth, "", none, none, none, 1⟩]
      (fun t => if t.id = "b" then some ⟨"body", "B"⟩ else none)
      [] "t0").failures) ∧
    (("a.md" : String) ∉ (generateModel ⟨false, none⟩
      ⟨JsVal.jobj [], JsVal.jarr [], [], [], [], JsVal.jarr []⟩ none
      [⟨"a", "A", "a.md", SectionType.overview, "", none, none, none, 0⟩,
       ⟨"b", "B", "b.md", SectionType.auth, "", none, none, none, 1⟩]
      (fun t => if t.id = "b" then some ⟨"body", "B"⟩ else none)
      [] "t0").written) ∧
    ∀ s ∈ [(⟨"a", "A", "a.md", SectionType.overview, "", none, none, none, 0⟩ : Section),
           ⟨"b", "B", "b.md", SectionType.auth, "", none, none, none, 1⟩],
      s.id ≠ (⟨"a", "A", "a.md", SectionType.overview, "", none, none, none, 0⟩ : Section).id →
      (getA s.outputPath (generateModel ⟨false, none⟩
        ⟨JsVal.jobj [], JsVal.jarr [], [], [], [], JsVal.jarr []⟩ none
        [⟨"a", "A", "a.md", SectionType.overview, "", none, none, none, 0⟩,
         ⟨"b", "B", "b.md", SectionType.auth, "", none, none, none, 1⟩]
        (fun t => if t.id = "b" then some ⟨"body", "B"⟩ else none)
        [] "t0").fs =
       getA s.outputPath (generateModel ⟨false, none⟩
        ⟨JsVal.jobj [], JsVal.jarr [], [], [], [], JsVal.jarr []⟩ none
        [⟨"a", "A", "a.md", SectionType.overview, "", none, none, none, 0⟩,
         ⟨"b", "B", "b.md", SectionType.auth, "", none, none, none, 1⟩]
        (fun t => if t.id = (⟨"a", "A", "a.md", SectionType.overview, "",
            none, none, none, 0⟩ : Section).id then some ⟨"md-a", "A"⟩
          else if t.id = "b" then some ⟨"body", "B"⟩ else none)
        [] "t0").fs ∧
      (s.outputPath ∈ (generateModel ⟨false, none⟩
        ⟨JsVal.jobj [], JsVal.jarr [], [], [], [], JsVal.jarr []⟩ none
        [⟨"a", "A", "a.md", SectionType.overview, "", none, none, none, 0⟩,
         ⟨"b", "B", "b.md", SectionType.auth, "", none, none, none, 1⟩]
        (fun t => if t.id = "b" then some ⟨"body", "B"⟩ else none)
        [] "t0").written ↔
       s.outputPath ∈ (generateModel ⟨false, none⟩
        ⟨JsVal.jobj [], JsVal.jarr [], [], [], [], JsVal.jarr []⟩ none
        [⟨"a", "A", "a.md", SectionType.overview, "", none, none, none, 0⟩,
         ⟨"b", "B", "b.md", SectionType.auth, "", none, none, none, 1⟩]
        (fun t => if t.id = (⟨"a", "A", "a.md", SectionType.overview, "",
            none, none, none, 0⟩ : Section).id then some ⟨"md-a", "A"⟩
          else if t.id = "b" then some ⟨"body", "B"⟩ else none)
        [] "t0").written)) :=
  c4_writer_failure_isolated ⟨false, none⟩
    ⟨JsVal.jobj [], JsVal.jarr [], [], [], [], JsVal.jarr []⟩ none
    [⟨"a", "A", "a.md", SectionType.overview, "", none, none, none, 0⟩,
     ⟨"b", "B", "b.md", SectionType.auth, "", none, none, none, 1⟩]
    (fun t => if t.id = "b" then some ⟨"body", "B"⟩ else none)
    [] "t0"
    ⟨"a", "A", "a.md", SectionType.overview, "", none, none, none, 0⟩
    ⟨"md-a", "A"⟩ rfl (by decide) (by decide) (by decide) rfl
